import Mathlib

/-!
# GJK / EPA intersection test of `steerlib/src/GJK_EPA.cpp`

A shallow embedding of the collision primitive `SteerLib::GJK_EPA::intersect`
and of the helpers of its anonymous namespace.

Modelling decisions.

* The C++ `float` is an arbitrary linearly ordered field `K` (exact
  arithmetic, no rounding), with the square root passed as a function
  `sqrt : K → K`.  A theorem that needs a property of the square root states
  it as a hypothesis; `Real.sqrt` satisfies `IsSqrt`.
* A division whose divisor is zero does not produce a field element: it
  produces `+inf` or `NaN`, which the type `Ext` keeps apart from the finite
  values, with the comparison rules of IEEE arithmetic.
* `assert` is fatal: a failed assertion ends the run with `Run.assertFail`.
* The two `do ... while` loops have no iteration cap in the source; the
  embedding gives them fuel and ends with `Run.outOfFuel` when it is used up.
* A second embedding of the same functions, `SteerLib.Rounded`, computes in
  IEEE 754 binary32 (`Ieee.Binary32`): every `float` operation rounds, may
  overflow to an infinity and may produce NaN.  A statement that holds in the
  field embedding and fails in the rounded one is recorded with the input on
  which it fails.
-/

namespace Util

/-- Modelled from the spec: the class `Util::Vector` (declared in the util
library, not part of this file's source): three numeric components. -/
structure Vector (K : Type) where
  x : K
  y : K
  z : K
deriving DecidableEq

namespace Vector

variable {K : Type} [LinearOrderedField K]

/-- Modelled from the spec: the default constructor `Util::Vector()`, the
zero vector. -/
def zero : Vector K := ⟨0, 0, 0⟩

/-- Modelled from the spec: vector addition. -/
def add (a b : Vector K) : Vector K := ⟨a.x + b.x, a.y + b.y, a.z + b.z⟩

/-- Modelled from the spec: vector subtraction, `a - b`. -/
def sub (a b : Vector K) : Vector K := ⟨a.x - b.x, a.y - b.y, a.z - b.z⟩

/-- Modelled from the spec: unary minus, `-a`. -/
def neg (a : Vector K) : Vector K := ⟨-a.x, -a.y, -a.z⟩

/-- Modelled from the spec: the dot product, written `a * b` in the source. -/
def dot (a b : Vector K) : K := a.x * b.x + a.y * b.y + a.z * b.z

/-- Modelled from the spec: the cross product `cross(a, b)`. -/
def cross (a b : Vector K) : Vector K :=
  ⟨a.y * b.z - a.z * b.y, a.z * b.x - a.x * b.z, a.x * b.y - a.y * b.x⟩

/-- Modelled from the spec: the Euclidean length `a.length()`. -/
def length (sqrt : K → K) (a : Vector K) : K :=
  sqrt (a.x * a.x + a.y * a.y + a.z * a.z)

end Vector

end Util

namespace SteerLib

open Util Util.Vector

variable {K : Type} [LinearOrderedField K]

/-- What is assumed of the square root: it is non-negative and squares back
to its argument on the non-negative numbers. -/
structure IsSqrt (sqrt : K → K) : Prop where
  nonneg : ∀ x, 0 ≤ sqrt x
  sq : ∀ x, 0 ≤ x → sqrt x * sqrt x = x

/-- The shape type `Object = std::vector<Util::Vector>`. -/
abbrev Object (K : Type) := List (Vector K)

/-- How a call ends: it returns a value, a fatal assertion fails, or the
fuel given to an uncapped loop is used up. -/
inductive Run (α : Type) where
  | ret (a : α) : Run α
  | assertFail : Run α
  | outOfFuel : Run α
deriving DecidableEq

/-- A `float` result that may be non-finite: a field element, `+inf`
(`INFINITY`, or a positive number divided by zero) or `NaN` (zero divided by
zero). -/
inductive Ext (K : Type) where
  | fin (a : K) : Ext K
  | posInf : Ext K
  | nan : Ext K
deriving DecidableEq

/-- The comparison `a < b` of two `float`s: false whenever one side is `NaN`,
and nothing is larger than `+inf`. -/
def Ext.lt : Ext K → Ext K → Bool
  | .fin a, .fin b => decide (a < b)
  | .fin _, .posInf => true
  | _, _ => false

/-- The quotient `abs(a) / b` as a `float`: non-finite when `b` is zero. -/
def Ext.absDiv (a b : K) : Ext K :=
  if b = 0 then (if |a| = 0 then .nan else .posInf) else .fin (|a| / b)

/-- The test `distance - depth < tol` of the EPA loop, `depth` and `tol`
finite: false when `distance` is `+inf` or `NaN`. -/
def Ext.subLt : Ext K → K → K → Bool
  | .fin d, depth, tol => decide (d - depth < tol)
  | _, _, _ => false

/-- One step of the scan of `supportVector`: the running maximum `max` is
replaced by `(vert * v, vert)` when `vert * v` is strictly larger. -/
def supportStep (v : Vector K) (max : K × Vector K) (vert : Vector K) : K × Vector K :=
  if dot vert v > max.1 then (dot vert v, vert) else max

/-- The function `supportVector(o, v)`; the failed `assert(!o.empty())` is
`Run.assertFail`. -/
def supportVector (o : Object K) (v : Vector K) : Run (Vector K) :=
  match o with
  | [] => .assertFail
  | o0 :: _ => .ret (o.foldl (supportStep v) (dot o0 v, o0)).2

/-- The function `minkDiffSupport(a, b, d)`, that is
`supportVector(a, d) - supportVector(b, -d)`. -/
def minkDiffSupport (a b : Object K) (d : Vector K) : Run (Vector K) :=
  match supportVector a d, supportVector b (neg d) with
  | .ret p, .ret q => .ret (sub p q)
  | _, _ => .assertFail

/-- The function `testSimplex(simplex, dir)`.  The deque is a list whose last
element is `simplex.back()`; the result is the returned boolean with the
simplex and the direction as the call leaves them. -/
def testSimplex (simplex : List (Vector K)) (dir : Vector K) :
    Run (Bool × List (Vector K) × Vector K) :=
  match simplex with
  | [s0] => .ret (decide (s0 = zero), [s0], neg dir)
  | [s0, s1] =>
    let connect := sub s0 s1
    if dot connect (neg s1) > 0 then
      let dir1 := cross (cross connect (neg s1)) (neg dir)
      .ret (decide (dir1 = zero), [s0, s1], dir1)
    else
      let dir1 := neg s1
      .ret (decide (dir1 = zero), [s1], dir1)
  | [s0, s1, s2] =>
    let connect1 := sub s0 s2
    let connect2 := sub s1 s2
    if dot connect1 (neg s2) ≤ 0 ∧ dot connect2 (neg s2) ≤ 0 then
      .ret (false, [s2], neg s2)
    else
      let norm := cross connect1 connect2
      let connect1_norm := cross connect1 norm
      let connect2_norm := cross norm connect2
      let dot_1 := dot connect1_norm (neg s2)
      let dot_2 := dot connect2_norm (neg s2)
      if dot_1 ≥ 0 then
        .ret (decide (dot_1 = 0), [s0, s2], connect1_norm)
      else if dot_2 ≥ 0 then
        .ret (decide (dot_2 = 0), [s1, s2], connect2_norm)
      else
        let dot_triangle := dot norm (neg s2)
        let dir1 := if dot_triangle > 0 then norm else neg norm
        if dot_triangle = 0 then .ret (true, [s0, s1, s2], dir1) else .assertFail
  | _ => .assertFail

/-- The function `distance_line_point(line, point)`; the three assertions on
the `y` coordinates are fatal. -/
def distance_line_point (sqrt : K → K) (line : Vector K × Vector K) (point : Vector K) :
    Run (Ext K) :=
  if line.1.y = 0 ∧ line.2.y = 0 ∧ point.y = 0 then
    .ret (Ext.absDiv
      ((line.2.z - line.1.z) * point.x - (line.2.x - line.1.x) * point.z +
        line.2.x * line.1.z + line.2.z * line.1.x)
      (sqrt ((line.2.z - line.1.z) ^ 2 + (line.2.x - line.1.x) ^ 2)))
  else .assertFail

/-- The GJK `do ... while` loop of `intersect`: `none` is the early
`return false`, `some simplex` is the exit of the loop with the simplex that
`testSimplex` accepted. -/
def gjkLoop (A B : Object K) : Nat → List (Vector K) → Vector K →
    Run (Option (List (Vector K)))
  | 0, _, _ => .outOfFuel
  | fuel + 1, simplex, dir =>
    match minkDiffSupport A B dir with
    | .ret point =>
      if dot (neg dir) (neg point) ≤ 0 then .ret none
      else
        match testSimplex (simplex ++ [point]) dir with
        | .ret (true, simplex1, _) => .ret (some simplex1)
        | .ret (false, simplex1, dir1) => gjkLoop A B fuel simplex1 dir1
        | .assertFail => .assertFail
        | .outOfFuel => .outOfFuel
    | .assertFail => .assertFail
    | .outOfFuel => .outOfFuel

/-- The tuple `min` of the EPA loop: the smallest distance seen, the iterator
of the start point of its edge (a position in the polytope) and the edge
vector. -/
structure MinEdge (K : Type) where
  dist : Ext K
  iter : Nat
  edge : Vector K

/-- The edges the inner `for (;;)` loop visits: for every position, the
point `*B` at it and the point `*I` after it, wrapping around at the end. -/
def polytopeEdges (polytope : List (Vector K)) : List (Nat × Vector K × Vector K) :=
  (polytope.zip (polytope.rotate 1)).enum

/-- The inner `for (;;)` loop of EPA over the edges still to visit. -/
def scanEdges (sqrt : K → K) : List (Nat × Vector K × Vector K) → MinEdge K → Run (MinEdge K)
  | [], min => .ret min
  | (i, b, e) :: rest, min =>
    match distance_line_point sqrt (b, e) zero with
    | .ret dist =>
      scanEdges sqrt rest (if Ext.lt dist min.dist then ⟨dist, i, sub e b⟩ else min)
    | .assertFail => .assertFail
    | .outOfFuel => .outOfFuel

/-- The call `polytope.insert(I, point)`: `point` is placed before the
element the iterator `I` points at. -/
def insertBefore (polytope : List (Vector K)) (iter : Nat) (point : Vector K) :
    List (Vector K) :=
  polytope.take iter ++ point :: polytope.drop iter

/-- The EPA `do ... while (true)` loop of `intersect`; it returns the
penetration depth and the penetration vector of its last iteration. -/
def epaLoop (sqrt : K → K) (A B : Object K) : Nat → List (Vector K) → Run (K × Vector K)
  | 0, _ => .outOfFuel
  | fuel + 1, polytope =>
    match scanEdges sqrt (polytopeEdges polytope) ⟨.posInf, 0, zero⟩ with
    | .ret min =>
      let dir := cross (cross (neg (polytope.getD min.iter zero)) min.edge) min.edge
      match minkDiffSupport A B dir with
      | .ret point =>
        if Ext.subLt min.dist (length sqrt point) (1 / 10000) then
          .ret (length sqrt point, point)
        else epaLoop sqrt A B fuel (insertBefore polytope min.iter point)
      | .assertFail => .assertFail
      | .outOfFuel => .outOfFuel
    | .assertFail => .assertFail
    | .outOfFuel => .outOfFuel

/-- The method `SteerLib::GJK_EPA::intersect`.  `pv0` is the value the
caller's `return_penetration_vector` holds on entry; the result is the
returned boolean with the two out-parameters as the call leaves them.  Each of
the two loops may use `fuel` iterations.  `front()` of an empty shape is
undefined behaviour and is treated as a failed assertion. -/
def intersect (sqrt : K → K) (fuel : Nat) (pv0 : Vector K) (shapeA shapeB : Object K) :
    Run (Bool × K × Vector K) :=
  match shapeA, shapeB with
  | a0 :: _, b0 :: _ =>
    match gjkLoop shapeA shapeB fuel [] (sub b0 a0) with
    | .ret none => .ret (false, 0, pv0)
    | .ret (some simplex) =>
      match epaLoop sqrt shapeA shapeB fuel simplex with
      | .ret (depth, vec) => .ret (true, depth, vec)
      | .assertFail => .assertFail
      | .outOfFuel => .outOfFuel
    | .assertFail => .assertFail
    | .outOfFuel => .outOfFuel
  | _, _ => .assertFail

/-- Applies a function to the value a call returns. -/
def Run.map {α β : Type} (f : α → β) : Run α → Run β
  | .ret a => .ret (f a)
  | .assertFail => .assertFail
  | .outOfFuel => .outOfFuel

/-- The shape `o` with the vector `t` added to every vertex. -/
def translate (t : Vector K) (o : Object K) : Object K :=
  o.map (fun p => add p t)

/-- The perpendicular distance from `point` to the line through `p1` and
`p2` in the plane `y = 0`, by the textbook formula that the specification
states: `|(p2.z - p1.z) q.x - (p2.x - p1.x) q.z + p2.x p1.z - p2.z p1.x|`
over the length of `p2 - p1`. -/
def perpendicularDistance (sqrt : K → K) (p1 p2 point : Vector K) : K :=
  |(p2.z - p1.z) * point.x - (p2.x - p1.x) * point.z + p2.x * p1.z - p2.z * p1.x| /
    sqrt ((p2.z - p1.z) ^ 2 + (p2.x - p1.x) ^ 2)

/-- The axis-aligned square of side 1 in the plane `y = 0` centred at
`(cx, 0, cz)`, its corners listed from `(cx - 1/2, cz - 1/2)` on. -/
def unitSquare (cx cz : K) : Object K :=
  [⟨cx - 1 / 2, 0, cz - 1 / 2⟩, ⟨cx + 1 / 2, 0, cz - 1 / 2⟩,
    ⟨cx + 1 / 2, 0, cz + 1 / 2⟩, ⟨cx - 1 / 2, 0, cz + 1 / 2⟩]

/-- The unit square centred at `(1/2, 0, 0)`, its corners listed in cyclic
order from `(1, -1/2)` on, in the winding direction opposite to that of
`unitSquare`. -/
def unitSquareHalfRev : Object K :=
  [⟨1, 0, -1 / 2⟩, ⟨0, 0, -1 / 2⟩, ⟨0, 0, 1 / 2⟩, ⟨1, 0, 1 / 2⟩]

/-- The axis-aligned rectangle in the plane `y = 0` with corner `(x0, z0)`,
width `w` along `x` and height `h` along `z`. -/
def rectangle (x0 z0 w h : K) : Object K :=
  [⟨x0, 0, z0⟩, ⟨x0 + w, 0, z0⟩, ⟨x0 + w, 0, z0 + h⟩, ⟨x0, 0, z0 + h⟩]

/-- A triangle in the half-plane `x ≤ 1`. -/
def triangleLeft : Object K := [⟨0, 0, -2⟩, ⟨1, 0, 0⟩, ⟨0, 0, 0⟩]

/-- A triangle in the half-plane `x ≥ 3`. -/
def triangleRight : Object K := [⟨3, 0, 3⟩, ⟨3, 0, 4⟩, ⟨4, 0, -2⟩]

/-- The point `p` lies on the segment from `a` to `b`, the convex hull of the
two points. -/
def onSegment (a b p : Vector K) : Prop :=
  ∃ t : K, 0 ≤ t ∧ t ≤ 1 ∧
    p = ⟨a.x + t * (b.x - a.x), a.y + t * (b.y - a.y), a.z + t * (b.z - a.z)⟩

/-- A triangle with the vertical side `x = 1`. -/
def triangleP : Object K := [⟨1, 0, -1⟩, ⟨1, 0, 1⟩, ⟨-1, 0, -1⟩]

/-- A triangle with the vertical side `x = 0`. -/
def triangleQ : Object K := [⟨2, 0, 0⟩, ⟨0, 0, -1⟩, ⟨0, 0, 0⟩]

/-- A triangle around the origin. -/
def triangleU : Object K := [⟨-3, 0, -2⟩, ⟨2, 0, 2⟩, ⟨3, 0, -2⟩]

/-- A triangle that overlaps `triangleU`. -/
def triangleV : Object K := [⟨0, 0, 4⟩, ⟨1, 0, 1⟩, ⟨-1, 0, -1⟩]

/-- The polytope of the run on `triangleU` and `triangleV` after `k + 1`
iterations of the EPA loop: the support point `(-2, 0, -1)` has been inserted
`k + 1` times before the last point. -/
def stuckPolytope (k : Nat) : List (Vector K) :=
  ⟨3, 0, 3⟩ :: ⟨-3, 0, -6⟩ :: (List.replicate (k + 1) ⟨-2, 0, -1⟩ ++ [⟨-4, 0, -3⟩])

/-- The direction of line 182, `cross(cross(-(*I), edge), edge)`, for the
edge start point `p` (the element `*I` of the polytope) and the edge vector
`e`. -/
def epaDirection (p e : Vector K) : Vector K :=
  cross (cross (neg p) e) e

end SteerLib

/-!
# The same functions in binary32 arithmetic

The embedding above reads `float` as a field.  The C++ `float` is IEEE 754
binary32: every operation rounds its exact result to 24 significant bits
(round to nearest, ties to even), overflows to an infinity, and produces NaN
from `inf - inf` and `0 * inf`.  The definitions below embed the same source
functions with these operations, so that a statement about the field
embedding can be compared with what the rounded program computes.
-/

namespace Ieee

/-- A value of the C++ type `float` (IEEE 754 binary32).  The finite value
`fin n` is the number `n * 2^(-149)`, an integer multiple of the smallest
subnormal; the operations below map representable values to representable
values.  Zero carries no sign: the functions embedded here never divide
floats, and every other operation and comparison treats `+0` and `-0`
alike. -/
inductive Binary32 where
  | fin (n : Int) : Binary32
  | pinf : Binary32
  | ninf : Binary32
  | nan : Binary32
deriving DecidableEq

/-- One step of the binary search of `log2`: the pair `(q, a)` with
`q = n >>> a` moves on to `(q >>> k, a + k)` when that leaves `q` non-zero. -/
def log2Step (p : Nat × Nat) (k : Nat) : Nat × Nat :=
  if p.1 >>> k = 0 then p else (p.1 >>> k, p.2 + k)

/-- The position of the leading bit of `n` (the floor of its binary
logarithm), for `0 < n < 2^1024`; 0 for `n = 0`.  Sums and products of two
binary32 values are below `2^556` in the units used here. -/
def log2 (n : Nat) : Nat :=
  ([512, 256, 128, 64, 32, 16, 8, 4, 2, 1].foldl log2Step (n, 0)).2

/-- The quotient `n / d` rounded to the nearest natural number, a tie going
to the even one. -/
def roundNat (n d : Nat) : Nat :=
  if 2 * (n % d) < d then n / d
  else if d < 2 * (n % d) then n / d + 1
  else if (n / d) % 2 = 0 then n / d else n / d + 1

/-- The magnitude `m * 2^(-149 - u)` rounded to binary32, in units of
`2^(-149)`: it keeps 24 significant bits, and no bit below `2^(-149)`
(subnormal range).  `none` is overflow: the rounded magnitude reaches
`2^128`. -/
def roundMag (m u : Nat) : Option Nat :=
  let s := max (log2 m - 23) u
  let r := roundNat m (1 <<< s) <<< (s - u)
  if 1 <<< 277 ≤ r then none else some r

/-- The exact value `z * 2^(-149 - u)` rounded to binary32. -/
def rnd (z : Int) (u : Nat) : Binary32 :=
  match roundMag z.natAbs u with
  | some r => .fin (if 0 ≤ z then (r : Int) else -(r : Int))
  | none => if 0 ≤ z then .pinf else .ninf

namespace Binary32

/-- The float nearest to the integer `k`. -/
def ofInt (k : Int) : Binary32 := rnd (k * ((1 <<< 149 : Nat) : Int)) 0

/-- The float `-a`. -/
def neg : Binary32 → Binary32
  | .fin n => .fin (-n)
  | .pinf => .ninf
  | .ninf => .pinf
  | .nan => .nan

/-- The float sum `a + b`. -/
def add : Binary32 → Binary32 → Binary32
  | .fin p, .fin q => rnd (p + q) 0
  | .nan, _ => .nan
  | _, .nan => .nan
  | .pinf, .ninf => .nan
  | .ninf, .pinf => .nan
  | .pinf, _ => .pinf
  | _, .pinf => .pinf
  | .ninf, _ => .ninf
  | _, .ninf => .ninf

/-- The float difference `a - b`. -/
def sub (a b : Binary32) : Binary32 := add a (neg b)

/-- The product of an infinity, `+inf` when `positive` and `-inf` otherwise,
with the finite float `fin n`: NaN for `n = 0`, else the infinity with the
product of the signs. -/
def infTimes (positive : Bool) (n : Int) : Binary32 :=
  if n = 0 then .nan else if decide (0 < n) = positive then .pinf else .ninf

/-- The float product `a * b`. -/
def mul : Binary32 → Binary32 → Binary32
  | .fin p, .fin q => rnd (p * q) 149
  | .nan, _ => .nan
  | _, .nan => .nan
  | .fin p, .pinf => infTimes true p
  | .fin p, .ninf => infTimes false p
  | .pinf, .fin q => infTimes true q
  | .ninf, .fin q => infTimes false q
  | .pinf, .pinf => .pinf
  | .pinf, .ninf => .ninf
  | .ninf, .pinf => .ninf
  | .ninf, .ninf => .pinf

/-- The comparison `a < b`: false when a side is NaN. -/
def lt : Binary32 → Binary32 → Bool
  | .fin p, .fin q => decide (p < q)
  | .fin _, .pinf => true
  | .ninf, .fin _ => true
  | .ninf, .pinf => true
  | _, _ => false

/-- The comparison `a == b`: false when a side is NaN. -/
def eq : Binary32 → Binary32 → Bool
  | .fin p, .fin q => decide (p = q)
  | .pinf, .pinf => true
  | .ninf, .ninf => true
  | _, _ => false

/-- The comparison `a <= b`: false when a side is NaN. -/
def le (a b : Binary32) : Bool := lt a b || eq a b

/-- The float `abs(a)`. -/
def abs : Binary32 → Binary32
  | .fin n => .fin |n|
  | .pinf => .pinf
  | .ninf => .pinf
  | .nan => .nan

/-- The `double` literal `0.0001`, which is `7378697629483821 * 2^(-66)`.  A
`float` compared with it is first converted to `double`, which changes no
value. -/
def tolerance : Binary32 := .fin (7378697629483821 * ((1 <<< 83 : Nat) : Int))

/-- The float `a` holds the integer `k` exactly, and `|k| ≤ B`. -/
def holds (B : Nat) (a : Binary32) (k : Int) : Prop :=
  a = .fin (k * 2 ^ 149) ∧ k.natAbs ≤ B

/-- The real number a float stands for, as a rational; 0 for a non-finite
value. -/
def toRat : Binary32 → ℚ
  | .fin n => (n : ℚ) / 2 ^ 149
  | _ => 0

end Binary32

end Ieee

namespace Util

namespace Rounded

open Ieee

/-- Modelled from the spec: the vector with the integer coordinates `x`, `y`,
`z`, each converted to `float`. -/
def vec (x y z : Int) : Vector Binary32 :=
  ⟨Binary32.ofInt x, Binary32.ofInt y, Binary32.ofInt z⟩

/-- Modelled from the spec: the default constructor `Util::Vector()`. -/
def zero : Vector Binary32 := ⟨.fin 0, .fin 0, .fin 0⟩

/-- Modelled from the spec: `a + b`, component by component. -/
def add (a b : Vector Binary32) : Vector Binary32 :=
  ⟨Binary32.add a.x b.x, Binary32.add a.y b.y, Binary32.add a.z b.z⟩

/-- Modelled from the spec: `a - b`, component by component. -/
def sub (a b : Vector Binary32) : Vector Binary32 :=
  ⟨Binary32.sub a.x b.x, Binary32.sub a.y b.y, Binary32.sub a.z b.z⟩

/-- Modelled from the spec: unary minus. -/
def neg (a : Vector Binary32) : Vector Binary32 :=
  ⟨Binary32.neg a.x, Binary32.neg a.y, Binary32.neg a.z⟩

/-- Modelled from the spec: the dot product `a * b`, evaluated from left to
right as `(a.x * b.x + a.y * b.y) + a.z * b.z`, every product and sum
rounded to `float` (no fused multiply-add). -/
def dot (a b : Vector Binary32) : Binary32 :=
  Binary32.add (Binary32.add (Binary32.mul a.x b.x) (Binary32.mul a.y b.y))
    (Binary32.mul a.z b.z)

/-- Modelled from the spec: the cross product `cross(a, b)`, every product
and difference rounded to `float`. -/
def cross (a b : Vector Binary32) : Vector Binary32 :=
  ⟨Binary32.sub (Binary32.mul a.y b.z) (Binary32.mul a.z b.y),
    Binary32.sub (Binary32.mul a.z b.x) (Binary32.mul a.x b.z),
    Binary32.sub (Binary32.mul a.x b.y) (Binary32.mul a.y b.x)⟩

/-- Modelled from the spec: `a == b`, the three components compared as
floats. -/
def eq (a b : Vector Binary32) : Bool :=
  Binary32.eq a.x b.x && Binary32.eq a.y b.y && Binary32.eq a.z b.z

/-- Modelled from the spec: the Euclidean length `a.length()`, the square
root `sqrtf` of the sum of the squares computed in `float`. -/
def length (sqrtf : Binary32 → Binary32) (a : Vector Binary32) : Binary32 :=
  sqrtf (Binary32.add (Binary32.add (Binary32.mul a.x a.x) (Binary32.mul a.y a.y))
    (Binary32.mul a.z a.z))

/-- The real vector a float vector stands for. -/
def toRat (a : Vector Binary32) : Vector ℚ :=
  ⟨Binary32.toRat a.x, Binary32.toRat a.y, Binary32.toRat a.z⟩

end Rounded

end Util

namespace SteerLib

namespace Rounded

open Util Ieee Util.Rounded

/-- One step of the scan of `supportVector` in `float`: the running maximum
is replaced when `dist > max.first`. -/
def supportStep (v : Vector Binary32) (max : Binary32 × Vector Binary32)
    (vert : Vector Binary32) : Binary32 × Vector Binary32 :=
  if Binary32.lt max.1 (dot vert v) then (dot vert v, vert) else max

/-- The function `supportVector(o, v)` in `float`. -/
def supportVector (o : Object Binary32) (v : Vector Binary32) : Run (Vector Binary32) :=
  match o with
  | [] => .assertFail
  | o0 :: _ => .ret (o.foldl (supportStep v) (dot o0 v, o0)).2

/-- The function `minkDiffSupport(a, b, d)` in `float`. -/
def minkDiffSupport (a b : Object Binary32) (d : Vector Binary32) : Run (Vector Binary32) :=
  match supportVector a d, supportVector b (neg d) with
  | .ret p, .ret q => .ret (sub p q)
  | _, _ => .assertFail

/-- The function `testSimplex(simplex, dir)` in `float`, with the same
conventions as the field version: the deque is a list, the result is the
returned boolean with the simplex and the direction as the call leaves
them. -/
def testSimplex (simplex : List (Vector Binary32)) (dir : Vector Binary32) :
    Run (Bool × List (Vector Binary32) × Vector Binary32) :=
  match simplex with
  | [s0] => .ret (eq s0 zero, [s0], neg dir)
  | [s0, s1] =>
    let connect := sub s0 s1
    if Binary32.lt (.fin 0) (dot connect (neg s1)) then
      let dir1 := cross (cross connect (neg s1)) (neg dir)
      .ret (eq dir1 zero, [s0, s1], dir1)
    else
      let dir1 := neg s1
      .ret (eq dir1 zero, [s1], dir1)
  | [s0, s1, s2] =>
    let connect1 := sub s0 s2
    let connect2 := sub s1 s2
    if Binary32.le (dot connect1 (neg s2)) (.fin 0) &&
        Binary32.le (dot connect2 (neg s2)) (.fin 0) then
      .ret (false, [s2], neg s2)
    else
      let norm := cross connect1 connect2
      let connect1_norm := cross connect1 norm
      let connect2_norm := cross norm connect2
      let dot_1 := dot connect1_norm (neg s2)
      let dot_2 := dot connect2_norm (neg s2)
      if Binary32.le (.fin 0) dot_1 then
        .ret (Binary32.eq dot_1 (.fin 0), [s0, s2], connect1_norm)
      else if Binary32.le (.fin 0) dot_2 then
        .ret (Binary32.eq dot_2 (.fin 0), [s1, s2], connect2_norm)
      else
        let dot_triangle := dot norm (neg s2)
        let dir1 := if Binary32.lt (.fin 0) dot_triangle then norm else neg norm
        if Binary32.eq dot_triangle (.fin 0) then .ret (true, [s0, s1, s2], dir1)
        else .assertFail
  | _ => .assertFail

/-- The GJK `do ... while` loop of `intersect` in `float`: `none` is the
early `return false`, `some simplex` the exit of the loop. -/
def gjkLoop (A B : Object Binary32) : Nat → List (Vector Binary32) → Vector Binary32 →
    Run (Option (List (Vector Binary32)))
  | 0, _, _ => .outOfFuel
  | fuel + 1, simplex, dir =>
    match minkDiffSupport A B dir with
    | .ret point =>
      if Binary32.le (dot (neg dir) (neg point)) (.fin 0) then .ret none
      else
        match testSimplex (simplex ++ [point]) dir with
        | .ret (true, simplex1, _) => .ret (some simplex1)
        | .ret (false, simplex1, dir1) => gjkLoop A B fuel simplex1 dir1
        | .assertFail => .assertFail
        | .outOfFuel => .outOfFuel
    | .assertFail => .assertFail
    | .outOfFuel => .outOfFuel

/-- The direction of line 182, `cross(cross(-(*I), edge), edge)`, in
`float`, for the edge start point `p` and the edge vector `e`. -/
def epaDirection (p e : Vector Binary32) : Vector Binary32 :=
  cross (cross (neg p) e) e

/-- The function `distance_line_point(line, point)` in `float`.  The
numerator is computed in `float`.  The quotient is a `double` computation:
`divSqrt num dz dx` stands for `num / sqrt(pow(dz, 2) + pow(dx, 2))`
evaluated in `double` on the three `float` arguments and converted back to
`float` by the `return`.  It is a parameter, so that a theorem about this
definition holds for every rounding of that quotient. -/
def distance_line_point (divSqrt : Binary32 → Binary32 → Binary32 → Binary32)
    (line : Vector Binary32 × Vector Binary32) (point : Vector Binary32) : Run Binary32 :=
  if Binary32.eq line.1.y (.fin 0) && Binary32.eq line.2.y (.fin 0) &&
      Binary32.eq point.y (.fin 0) then
    .ret (divSqrt
      (Binary32.abs (Binary32.add (Binary32.add (Binary32.sub
        (Binary32.mul (Binary32.sub line.2.z line.1.z) point.x)
        (Binary32.mul (Binary32.sub line.2.x line.1.x) point.z))
        (Binary32.mul line.2.x line.1.z)) (Binary32.mul line.2.z line.1.x)))
      (Binary32.sub line.2.z line.1.z) (Binary32.sub line.2.x line.1.x))
  else .assertFail

/-- The tuple `min` of the EPA loop in `float`: the smallest distance seen,
the position of the start point of its edge and the edge vector. -/
structure MinEdge where
  dist : Binary32
  iter : Nat
  edge : Vector Binary32

/-- The edges the inner `for (;;)` loop visits: for every position, the
point `*B` at it and the point `*I` after it, wrapping around at the end. -/
def polytopeEdges (polytope : List (Vector Binary32)) :
    List (Nat × Vector Binary32 × Vector Binary32) :=
  (polytope.zip (polytope.rotate 1)).enum

/-- The inner `for (;;)` loop of EPA in `float` over the edges still to
visit. -/
def scanEdges (divSqrt : Binary32 → Binary32 → Binary32 → Binary32) :
    List (Nat × Vector Binary32 × Vector Binary32) → MinEdge → Run MinEdge
  | [], min => .ret min
  | (i, b, e) :: rest, min =>
    match distance_line_point divSqrt (b, e) zero with
    | .ret dist =>
      scanEdges divSqrt rest (if Binary32.lt dist min.dist then ⟨dist, i, sub e b⟩ else min)
    | .assertFail => .assertFail
    | .outOfFuel => .outOfFuel

/-- The call `polytope.insert(I, point)`: `point` is placed before the
element the iterator `I` points at. -/
def insertBefore (polytope : List (Vector Binary32)) (iter : Nat) (point : Vector Binary32) :
    List (Vector Binary32) :=
  polytope.take iter ++ point :: polytope.drop iter

/-- The EPA `do ... while (true)` loop of `intersect` in `float`; `sqrtf` is
the square root that `length()` takes. -/
def epaLoop (divSqrt : Binary32 → Binary32 → Binary32 → Binary32)
    (sqrtf : Binary32 → Binary32) (A B : Object Binary32) :
    Nat → List (Vector Binary32) → Run (Binary32 × Vector Binary32)
  | 0, _ => .outOfFuel
  | fuel + 1, polytope =>
    match scanEdges divSqrt (polytopeEdges polytope) ⟨.pinf, 0, zero⟩ with
    | .ret min =>
      match minkDiffSupport A B (epaDirection (polytope.getD min.iter zero) min.edge) with
      | .ret point =>
        if Binary32.lt (Binary32.sub min.dist (length sqrtf point)) Binary32.tolerance then
          .ret (length sqrtf point, point)
        else epaLoop divSqrt sqrtf A B fuel (insertBefore polytope min.iter point)
      | .assertFail => .assertFail
      | .outOfFuel => .outOfFuel
    | .assertFail => .assertFail
    | .outOfFuel => .outOfFuel

/-- The method `SteerLib::GJK_EPA::intersect` in `float`, with the same
conventions as the field version; `divSqrt` and `sqrtf` are the `double`
quotient of `distance_line_point` and the square root of `length()`. -/
def intersect (divSqrt : Binary32 → Binary32 → Binary32 → Binary32)
    (sqrtf : Binary32 → Binary32) (fuel : Nat) (pv0 : Vector Binary32)
    (shapeA shapeB : Object Binary32) : Run (Bool × Binary32 × Vector Binary32) :=
  match shapeA, shapeB with
  | a0 :: _, b0 :: _ =>
    match gjkLoop shapeA shapeB fuel [] (sub b0 a0) with
    | .ret none => .ret (false, .fin 0, pv0)
    | .ret (some simplex) =>
      match epaLoop divSqrt sqrtf shapeA shapeB fuel simplex with
      | .ret (depth, vec) => .ret (true, depth, vec)
      | .assertFail => .assertFail
      | .outOfFuel => .outOfFuel
    | .assertFail => .assertFail
    | .outOfFuel => .outOfFuel
  | _, _ => .assertFail

/-- The shape `o` with the vector `t` added to every vertex, in `float`. -/
def translate (t : Vector Binary32) (o : Object Binary32) : Object Binary32 :=
  o.map (fun p => add p t)

end Rounded

end SteerLib


namespace SteerLib

open Util Util.Vector

variable {K : Type} [LinearOrderedField K]

/-! ## The support function -/

/-- The scan of `supportVector` over a list `l`, started from a vertex `r0`
with its own dot product: either `r0` survives and nothing in `l` beats it, or
the result is the first element of `l` that attains the largest dot product,
which is strictly larger than that of `r0`. -/
lemma foldl_supportStep (v : Vector K) (l : List (Vector K)) (r0 : Vector K) :
    (l.foldl (supportStep v) (dot r0 v, r0)).1 =
        dot (l.foldl (supportStep v) (dot r0 v, r0)).2 v ∧
    (((l.foldl (supportStep v) (dot r0 v, r0)).2 = r0 ∧ ∀ w ∈ l, dot w v ≤ dot r0 v) ∨
      ∃ pre post, l = pre ++ (l.foldl (supportStep v) (dot r0 v, r0)).2 :: post ∧
        (∀ w ∈ pre, dot w v < dot (l.foldl (supportStep v) (dot r0 v, r0)).2 v) ∧
        dot r0 v < dot (l.foldl (supportStep v) (dot r0 v, r0)).2 v ∧
        ∀ w ∈ post, dot w v ≤ dot (l.foldl (supportStep v) (dot r0 v, r0)).2 v) := by
  induction l generalizing r0 with
  | nil => simp
  | cons a t ih =>
    by_cases h : dot a v > dot r0 v
    · have hstep : supportStep v (dot r0 v, r0) a = (dot a v, a) := by
        simp [supportStep, h]
      rw [List.foldl_cons, hstep]
      obtain ⟨h1, h2⟩ := ih a
      refine ⟨h1, Or.inr ?_⟩
      rcases h2 with ⟨he, hle⟩ | ⟨pre, post, hl, hpre, hlt, hpost⟩
      · refine ⟨[], t, ?_, ?_, ?_, ?_⟩
        · rw [he]; rfl
        · simp
        · rw [he]; exact h
        · rw [he]; exact hle
      · refine ⟨a :: pre, post, ?_, ?_, ?_, hpost⟩
        · rw [List.cons_append, ← hl]
        · intro w hw
          rcases List.mem_cons.1 hw with rfl | hw
          · exact hlt
          · exact hpre w hw
        · exact lt_trans h hlt
    · have hstep : supportStep v (dot r0 v, r0) a = (dot r0 v, r0) := by
        simp [supportStep, h]
      rw [List.foldl_cons, hstep]
      obtain ⟨h1, h2⟩ := ih r0
      refine ⟨h1, ?_⟩
      rcases h2 with ⟨he, hle⟩ | ⟨pre, post, hl, hpre, hlt, hpost⟩
      · refine Or.inl ⟨he, ?_⟩
        intro w hw
        rcases List.mem_cons.1 hw with rfl | hw
        · exact not_lt.1 h
        · exact hle w hw
      · refine Or.inr ⟨a :: pre, post, ?_, ?_, hlt, hpost⟩
        · rw [List.cons_append, ← hl]
        · intro w hw
          rcases List.mem_cons.1 hw with rfl | hw
          · exact lt_of_le_of_lt (not_lt.1 h) hlt
          · exact hpre w hw

/-- On a non-empty shape `supportVector` returns a vertex that splits the
shape into the vertices before it, all with a strictly smaller dot product,
and the vertices after it, none with a larger one. -/
lemma supportVector_split (o : Object K) (v : Vector K) (h : o ≠ []) :
    ∃ r pre post, supportVector o v = .ret r ∧ o = pre ++ r :: post ∧
      (∀ w ∈ pre, dot w v < dot r v) ∧ ∀ w ∈ post, dot w v ≤ dot r v := by
  cases o with
  | nil => exact absurd rfl h
  | cons o0 rest =>
    have hstep : supportStep v (dot o0 v, o0) o0 = (dot o0 v, o0) := by
      simp [supportStep]
    obtain ⟨-, h2⟩ := foldl_supportStep v rest o0
    have hsv : supportVector (o0 :: rest) v =
        .ret (rest.foldl (supportStep v) (dot o0 v, o0)).2 := by
      simp only [supportVector, List.foldl_cons, hstep]
    rcases h2 with ⟨he, hle⟩ | ⟨pre, post, hl, hpre, hlt, hpost⟩
    · refine ⟨_, [], rest, hsv, ?_, ?_, ?_⟩
      · rw [he]; rfl
      · simp
      · rw [he]; exact hle
    · refine ⟨_, o0 :: pre, post, hsv, ?_, ?_, hpost⟩
      · rw [List.cons_append, ← hl]
      · intro w hw
        rcases List.mem_cons.1 hw with rfl | hw
        · exact hlt
        · exact hpre w hw

/-- On a non-empty shape `supportVector` returns a vertex of the shape whose
dot product with the direction is the largest. -/
lemma supportVector_max (o : Object K) (v : Vector K) (h : o ≠ []) :
    ∃ r, supportVector o v = .ret r ∧ r ∈ o ∧ ∀ w ∈ o, dot w v ≤ dot r v := by
  obtain ⟨r, pre, post, hr, ho, hpre, hpost⟩ := supportVector_split o v h
  refine ⟨r, hr, ?_, ?_⟩
  · rw [ho]; simp
  · intro w hw
    rw [ho] at hw
    rcases List.mem_append.1 hw with hw | hw
    · exact le_of_lt (hpre w hw)
    · rcases List.mem_cons.1 hw with rfl | hw
      · exact le_refl _
      · exact hpost w hw

/-- In exact arithmetic (`float` read as a field): for a non-empty shape `o`
and a direction `v`, `supportVector` returns a vertex `r` of `o` with
`w . v ≤ r . v` for every vertex `w`, and `r` is the first vertex in list
order that attains the maximum: every vertex before it has a strictly smaller
dot product. -/
theorem supportVector_first_maximizer (o : Object K) (v : Vector K) (h : o ≠ []) :
    ∃ r pre post, supportVector o v = .ret r ∧ o = pre ++ r :: post ∧
      (∀ w ∈ pre, dot w v < dot r v) ∧ (∀ w ∈ o, dot w v ≤ dot r v) := by
  obtain ⟨r, pre, post, hr, ho, hpre, hpost⟩ := supportVector_split o v h
  refine ⟨r, pre, post, hr, ho, hpre, ?_⟩
  intro w hw
  rw [ho] at hw
  rcases List.mem_append.1 hw with hw | hw
  · exact le_of_lt (hpre w hw)
  · rcases List.mem_cons.1 hw with rfl | hw
    · exact le_refl _
    · exact hpost w hw

/-- In exact arithmetic (`float` read as a field: no operation rounds,
overflows or produces NaN): for non-empty shapes `A` and `B`,
`minkDiffSupport A B d` is `a' - b'` for a vertex `a'` of `A` and a vertex
`b'` of `B`, and no vertex difference `a - b` has a larger dot product with
`d`. -/
theorem minkDiffSupport_extreme (A B : Object K) (d : Vector K) (hA : A ≠ []) (hB : B ≠ []) :
    ∃ a' ∈ A, ∃ b' ∈ B, minkDiffSupport A B d = .ret (sub a' b') ∧
      ∀ a ∈ A, ∀ b ∈ B, dot (sub a b) d ≤ dot (sub a' b') d := by
  obtain ⟨p, hp, hpA, hpmax⟩ := supportVector_max A d hA
  obtain ⟨q, hq, hqB, hqmax⟩ := supportVector_max B (neg d) hB
  refine ⟨p, hpA, q, hqB, ?_, ?_⟩
  · simp [minkDiffSupport, hp, hq]
  · intro a ha b hb
    have h1 := hpmax a ha
    have h2 := hqmax b hb
    simp only [dot, sub, neg] at h1 h2 ⊢
    nlinarith [h1, h2]

/-! ## Vector algebra -/

lemma neg_neg_vec (a : Vector K) : neg (neg a) = a := by
  simp [neg]

lemma neg_zero_vec : neg (zero : Vector K) = zero := by
  simp [neg, zero]

lemma neg_eq_zero_vec (a : Vector K) : neg a = zero ↔ a = zero := by
  cases a; simp [neg, zero]

lemma sub_neg_neg (a b : Vector K) : sub (neg a) (neg b) = neg (sub a b) := by
  simp only [sub, neg, Vector.mk.injEq]; refine ⟨?_, ?_, ?_⟩ <;> ring

lemma sub_swap (a b : Vector K) : sub b a = neg (sub a b) := by
  simp only [sub, neg, Vector.mk.injEq]; refine ⟨?_, ?_, ?_⟩ <;> ring

lemma dot_neg_left (a b : Vector K) : dot (neg a) b = -dot a b := by
  simp only [dot, neg]; ring

lemma dot_neg_right (a b : Vector K) : dot a (neg b) = -dot a b := by
  simp only [dot, neg]; ring

lemma cross_neg_left (a b : Vector K) : cross (neg a) b = neg (cross a b) := by
  simp only [cross, neg, Vector.mk.injEq]; refine ⟨?_, ?_, ?_⟩ <;> ring

lemma cross_neg_right (a b : Vector K) : cross a (neg b) = neg (cross a b) := by
  simp only [cross, neg, Vector.mk.injEq]; refine ⟨?_, ?_, ?_⟩ <;> ring

lemma length_neg (sqrt : K → K) (a : Vector K) : length sqrt (neg a) = length sqrt a := by
  simp only [length, neg, neg_mul_neg]

lemma minkDiffSupport_swap (A B : Object K) (d : Vector K) :
    minkDiffSupport B A (neg d) = Run.map neg (minkDiffSupport A B d) := by
  simp only [minkDiffSupport, neg_neg_vec]
  cases supportVector A d <;> cases supportVector B (neg d) <;> simp only [Run.map]
  rw [sub_swap]

/-- What `testSimplex` does on the negated simplex and direction: the same
boolean, the negated simplex and, unless it returns true, the negated
direction. -/
lemma testSimplex_neg (simplex : List (Vector K)) (dir : Vector K) :
    match testSimplex simplex dir with
    | .ret (false, s1, d1) =>
      testSimplex (simplex.map neg) (neg dir) = .ret (false, s1.map neg, neg d1)
    | .ret (true, s1, _) =>
      ∃ d2, testSimplex (simplex.map neg) (neg dir) = .ret (true, s1.map neg, d2)
    | .assertFail => testSimplex (simplex.map neg) (neg dir) = .assertFail
    | .outOfFuel => testSimplex (simplex.map neg) (neg dir) = .outOfFuel := by
  rcases simplex with _ | ⟨s0, _ | ⟨s1, _ | ⟨s2, _ | ⟨s3, rest⟩⟩⟩⟩
  · simp only [testSimplex, List.map_nil]
  · simp only [testSimplex, List.map_cons, List.map_nil, neg_eq_zero_vec]
    split
    all_goals
      rename_i heq
      first
      | (injection heq with heq; injection heq with hb heq; injection heq with hs hd
         subst hs hd; simp_all [neg_neg_vec])
      | cases heq
  · simp only [testSimplex, List.map_cons, List.map_nil, sub_neg_neg, dot_neg_left,
      dot_neg_right, neg_neg_vec, cross_neg_left, cross_neg_right, neg_eq_zero_vec, neg_neg]
    split_ifs with h1
    all_goals
      split
      all_goals
        rename_i heq
        first
        | rfl
        | (injection heq with heq; injection heq with hb heq; injection heq with hs hd
           subst hs hd; simp_all [neg_neg_vec])
        | cases heq
  · simp only [testSimplex, List.map_cons, List.map_nil, sub_neg_neg, dot_neg_left,
      dot_neg_right, neg_neg_vec, cross_neg_left, cross_neg_right, neg_eq_zero_vec, neg_neg,
      neg_eq_zero]
    split_ifs with h1 h2 h3 h4
    all_goals
      split
      all_goals
        rename_i heq
        first
        | rfl
        | (injection heq with heq; injection heq with hb heq; injection heq with hs hd
           subst hs hd; simp_all [neg_neg_vec])
        | cases heq
  · simp only [testSimplex, List.map_cons]

lemma gjkLoop_swap (A B : Object K) (fuel : Nat) (simplex : List (Vector K))
    (dir : Vector K) :
    gjkLoop B A fuel (simplex.map neg) (neg dir) =
      Run.map (Option.map (List.map neg)) (gjkLoop A B fuel simplex dir) := by
  induction fuel generalizing simplex dir with
  | zero => rfl
  | succ n ih =>
    simp only [gjkLoop, minkDiffSupport_swap]
    cases hm : minkDiffSupport A B dir with
    | assertFail => rfl
    | outOfFuel => rfl
    | ret point =>
      simp only [Run.map, dot_neg_left, dot_neg_right, neg_neg]
      split_ifs with h1
      · rfl
      · have hsimp : simplex.map neg ++ [neg point] = (simplex ++ [point]).map neg := by
          simp
        have ht := testSimplex_neg (simplex ++ [point]) dir
        rw [hsimp]
        cases hts : testSimplex (simplex ++ [point]) dir with
        | assertFail => rw [hts] at ht; simp only at ht; rw [ht]
        | outOfFuel => rw [hts] at ht; simp only at ht; rw [ht]
        | ret r =>
          obtain ⟨b, s1, d1⟩ := r
          rw [hts] at ht
          cases b with
          | false => simp only at ht; rw [ht]; simp only; exact ih s1 d1
          | true =>
            simp only at ht
            obtain ⟨d2, hd2⟩ := ht
            rw [hd2]; rfl

lemma distance_line_point_neg (sqrt : K → K) (b e : Vector K) :
    distance_line_point sqrt (neg b, neg e) zero = distance_line_point sqrt (b, e) zero := by
  have h1 : (-e.z - -b.z) ^ 2 + (-e.x - -b.x) ^ 2 = (e.z - b.z) ^ 2 + (e.x - b.x) ^ 2 := by
    ring
  have h2 : (-e.z - -b.z) * 0 - (-e.x - -b.x) * 0 + -e.x * -b.z + -e.z * -b.x =
      (e.z - b.z) * 0 - (e.x - b.x) * 0 + e.x * b.z + e.z * b.x := by
    ring
  simp only [distance_line_point, neg, zero, h1, h2, neg_eq_zero]

lemma polytopeEdges_neg (polytope : List (Vector K)) :
    polytopeEdges (polytope.map neg) =
      (polytopeEdges polytope).map (Prod.map id (Prod.map neg neg)) := by
  simp only [polytopeEdges, ← List.map_rotate, List.zip_map, List.enum_map]

lemma scanEdges_neg (sqrt : K → K) (edges : List (Nat × Vector K × Vector K))
    (min : MinEdge K) :
    scanEdges sqrt (edges.map (Prod.map id (Prod.map neg neg)))
        ⟨min.dist, min.iter, neg min.edge⟩ =
      Run.map (fun m => ⟨m.dist, m.iter, neg m.edge⟩) (scanEdges sqrt edges min) := by
  induction edges generalizing min with
  | nil => rfl
  | cons e rest ih =>
    obtain ⟨i, b, e⟩ := e
    simp only [List.map_cons, Prod.map, id, scanEdges, distance_line_point_neg, sub_neg_neg]
    cases distance_line_point sqrt (b, e) zero with
    | assertFail => rfl
    | outOfFuel => rfl
    | ret dist =>
      simp only
      split_ifs with h
      · exact ih ⟨dist, i, sub e b⟩
      · exact ih min

lemma insertBefore_neg (polytope : List (Vector K)) (iter : Nat) (point : Vector K) :
    insertBefore (polytope.map neg) iter (neg point) =
      (insertBefore polytope iter point).map neg := by
  simp [insertBefore]

lemma epaLoop_swap (sqrt : K → K) (A B : Object K) (fuel : Nat)
    (polytope : List (Vector K)) :
    epaLoop sqrt B A fuel (polytope.map neg) =
      Run.map (fun r => (r.1, neg r.2)) (epaLoop sqrt A B fuel polytope) := by
  induction fuel generalizing polytope with
  | zero => rfl
  | succ n ih =>
    have hs := scanEdges_neg sqrt (polytopeEdges polytope) ⟨.posInf, 0, zero⟩
    simp only [neg_zero_vec] at hs
    simp only [epaLoop, polytopeEdges_neg, hs]
    cases scanEdges sqrt (polytopeEdges polytope) ⟨.posInf, 0, zero⟩ with
    | assertFail => rfl
    | outOfFuel => rfl
    | ret min =>
      have hget : (polytope.map neg).getD min.iter zero = neg (polytope.getD min.iter zero) := by
        have := List.getD_map (l := polytope) (d := (zero : Vector K)) (n := min.iter) neg
        rw [neg_zero_vec] at this
        exact this
      have hdir : cross (cross (neg (neg (polytope.getD min.iter zero))) (neg min.edge))
          (neg min.edge) =
          neg (cross (cross (neg (polytope.getD min.iter zero)) min.edge) min.edge) := by
        simp only [cross_neg_left, cross_neg_right, neg_neg_vec]
      simp only [Run.map, hget, hdir, minkDiffSupport_swap]
      cases minkDiffSupport A B
          (cross (cross (neg (polytope.getD min.iter zero)) min.edge) min.edge) with
      | assertFail => rfl
      | outOfFuel => rfl
      | ret point =>
        simp only [Run.map, length_neg, insertBefore_neg]
        split_ifs with h
        · rfl
        · exact ih _

/-- C7: calling `intersect` with the two shapes exchanged gives the same
boolean and the same penetration depth, and when the result is true the
penetration vector is the negation of the one from the original order (exact
arithmetic, for every amount of fuel given to the loops). -/
theorem intersect_swap (sqrt : K → K) (fuel : Nat) (pv0 : Vector K) (A B : Object K) :
    intersect sqrt fuel pv0 B A =
      match intersect sqrt fuel pv0 A B with
      | .ret (true, depth, vec) => .ret (true, depth, neg vec)
      | r => r := by
  cases A with
  | nil => cases B <;> rfl
  | cons a0 A1 =>
    cases B with
    | nil => rfl
    | cons b0 B1 =>
      have hg := gjkLoop_swap (a0 :: A1) (b0 :: B1) fuel [] (sub b0 a0)
      rw [List.map_nil, ← sub_swap] at hg
      simp only [intersect, hg]
      cases gjkLoop (a0 :: A1) (b0 :: B1) fuel [] (sub b0 a0) with
      | assertFail => rfl
      | outOfFuel => rfl
      | ret r =>
        cases r with
        | none => rfl
        | some simplex =>
          simp only [Run.map, Option.map, epaLoop_swap]
          cases epaLoop sqrt (a0 :: A1) (b0 :: B1) fuel simplex with
          | assertFail => rfl
          | outOfFuel => rfl
          | ret r => rfl

/-! ## The result of a successful call -/

/-- A square root takes `r * r` back to `r` when `r` is non-negative. -/
lemma sqrt_mul_self {sqrt : K → K} (hs : IsSqrt sqrt) (r : K) (hr : 0 ≤ r) :
    sqrt (r * r) = r := by
  have h1 := hs.sq (r * r) (mul_self_nonneg r)
  have h2 := hs.nonneg (r * r)
  nlinarith [h1, h2, hr]

/-- The real square root is a square root. -/
lemma isSqrt_real : IsSqrt Real.sqrt :=
  ⟨Real.sqrt_nonneg, fun _ hx => Real.mul_self_sqrt hx⟩

/-- One GJK iteration that ends with `return false`. -/
lemma gjkLoop_reject (A B : Object K) (fuel : Nat) (simplex : List (Vector K))
    (dir point : Vector K) (h1 : minkDiffSupport A B dir = .ret point)
    (h2 : dot (neg dir) (neg point) ≤ 0) :
    gjkLoop A B (fuel + 1) simplex dir = .ret none := by
  simp only [gjkLoop, h1, h2, if_true]

/-- One GJK iteration after which the loop goes on. -/
lemma gjkLoop_continue (A B : Object K) (fuel : Nat) (simplex s1 : List (Vector K))
    (dir point d1 : Vector K) (h1 : minkDiffSupport A B dir = .ret point)
    (h2 : ¬ dot (neg dir) (neg point) ≤ 0)
    (h3 : testSimplex (simplex ++ [point]) dir = .ret (false, s1, d1)) :
    gjkLoop A B (fuel + 1) simplex dir = gjkLoop A B fuel s1 d1 := by
  simp only [gjkLoop, h1, h2, if_false, h3]

/-- One GJK iteration in which `testSimplex` returns true. -/
lemma gjkLoop_accept (A B : Object K) (fuel : Nat) (simplex s1 : List (Vector K))
    (dir point d1 : Vector K) (h1 : minkDiffSupport A B dir = .ret point)
    (h2 : ¬ dot (neg dir) (neg point) ≤ 0)
    (h3 : testSimplex (simplex ++ [point]) dir = .ret (true, s1, d1)) :
    gjkLoop A B (fuel + 1) simplex dir = .ret (some s1) := by
  simp only [gjkLoop, h1, h2, if_false, h3]

/-- One EPA iteration that ends the loop. -/
lemma epaLoop_stop (sqrt : K → K) (A B : Object K) (fuel : Nat) (polytope : List (Vector K))
    (min : MinEdge K) (point : Vector K)
    (h1 : scanEdges sqrt (polytopeEdges polytope) ⟨.posInf, 0, zero⟩ = .ret min)
    (h2 : minkDiffSupport A B
      (cross (cross (neg (polytope.getD min.iter zero)) min.edge) min.edge) = .ret point)
    (h3 : Ext.subLt min.dist (length sqrt point) (1 / 10000) = true) :
    epaLoop sqrt A B (fuel + 1) polytope = .ret (length sqrt point, point) := by
  simp only [epaLoop, h1, h2, h3, if_true]

/-- One EPA iteration after which the loop goes on. -/
lemma epaLoop_continue (sqrt : K → K) (A B : Object K) (fuel : Nat)
    (polytope : List (Vector K)) (min : MinEdge K) (point : Vector K)
    (h1 : scanEdges sqrt (polytopeEdges polytope) ⟨.posInf, 0, zero⟩ = .ret min)
    (h2 : minkDiffSupport A B
      (cross (cross (neg (polytope.getD min.iter zero)) min.edge) min.edge) = .ret point)
    (h3 : Ext.subLt min.dist (length sqrt point) (1 / 10000) = false) :
    epaLoop sqrt A B (fuel + 1) polytope =
      epaLoop sqrt A B fuel (insertBefore polytope min.iter point) := by
  simp only [epaLoop, h1, h2, h3]
  rfl

/-- The outcome of `intersect` when GJK accepts and EPA stops. -/
lemma intersect_eq_true (sqrt : K → K) (fuel : Nat) (pv0 a0 : Vector K) (A1 : Object K)
    (b0 : Vector K) (B1 : Object K) (dir : Vector K) (simplex : List (Vector K)) (depth : K)
    (vec : Vector K) (hd : sub b0 a0 = dir)
    (g : gjkLoop (a0 :: A1) (b0 :: B1) fuel [] dir = .ret (some simplex))
    (e : epaLoop sqrt (a0 :: A1) (b0 :: B1) fuel simplex = .ret (depth, vec)) :
    intersect sqrt fuel pv0 (a0 :: A1) (b0 :: B1) = .ret (true, depth, vec) := by
  simp only [intersect, hd, g, e]

/-- The outcome of `intersect` when GJK finds a separating direction. -/
lemma intersect_eq_false (sqrt : K → K) (fuel : Nat) (pv0 a0 : Vector K) (A1 : Object K)
    (b0 : Vector K) (B1 : Object K) (dir : Vector K) (hd : sub b0 a0 = dir)
    (g : gjkLoop (a0 :: A1) (b0 :: B1) fuel [] dir = .ret none) :
    intersect sqrt fuel pv0 (a0 :: A1) (b0 :: B1) = .ret (false, 0, pv0) := by
  simp only [intersect, hd, g]

/-- The unit square centred at the origin against the unit square centred at
`(1/2, 0, 0)` listed from another corner in the other direction. -/
lemma intersect_unitSquare_halfRev (sqrt : K → K) (hs : IsSqrt sqrt) :
    intersect sqrt 2 zero (unitSquare 0 0 : Object K) (unitSquareHalfRev) =
      .ret (true, 3 / 2, ⟨-3 / 2, 0, 0⟩) := by
  have h9_4 : sqrt (9 / 4) = 3 / 2 := by
    have := sqrt_mul_self hs (3 / 2) (by norm_num); norm_num at this; exact this
  have h4 : sqrt (4) = 2 := by
    have := sqrt_mul_self hs (2) (by norm_num); norm_num at this; exact this
  have g : gjkLoop (unitSquare 0 0 : Object K) (unitSquareHalfRev) 2 [] ⟨3 / 2, 0, 0⟩ =
      .ret (some [⟨1 / 2, 0, 0⟩, ⟨-3 / 2, 0, 0⟩]) := by
    rw [gjkLoop_continue _ _ 1 [] [⟨1 / 2, 0, 0⟩] ⟨3 / 2, 0, 0⟩ ⟨1 / 2, 0, 0⟩ ⟨-3 / 2, 0, 0⟩
      (by norm_num [minkDiffSupport, supportVector, supportStep, unitSquare, unitSquareHalfRev,
        dot, sub, neg, cross, zero])
      (by norm_num [dot, neg])
      (by norm_num [testSimplex, dot, sub, neg, cross, zero])]
    rw [gjkLoop_accept _ _ 0 [⟨1 / 2, 0, 0⟩] [⟨1 / 2, 0, 0⟩, ⟨-3 / 2, 0, 0⟩] ⟨-3 / 2, 0, 0⟩
      ⟨-3 / 2, 0, 0⟩ ⟨0, 0, 0⟩
      (by norm_num [minkDiffSupport, supportVector, supportStep, unitSquare, unitSquareHalfRev,
        dot, sub, neg, cross, zero])
      (by norm_num [dot, neg])
      (by norm_num [testSimplex, dot, sub, neg, cross, zero])]
  have e : epaLoop sqrt (unitSquare 0 0 : Object K) (unitSquareHalfRev) 2 [⟨1 / 2, 0, 0⟩,
    ⟨-3 / 2, 0, 0⟩] =
      .ret (3 / 2, ⟨-3 / 2, 0, 0⟩) := by
    rw [epaLoop_stop sqrt _ _ 1 [⟨1 / 2, 0, 0⟩, ⟨-3 / 2, 0, 0⟩] ⟨.fin (0), 0, ⟨-2, 0, 0⟩⟩
      ⟨-3 / 2, 0, 0⟩
      (by norm_num [scanEdges, polytopeEdges, distance_line_point, Ext.absDiv, Ext.lt, h9_4, h4,
        sub, zero])
      (by norm_num [minkDiffSupport, supportVector, supportStep, unitSquare, unitSquareHalfRev,
        dot, sub, neg, cross, zero])
      (by norm_num [Ext.subLt, length, h9_4, h4])]
    norm_num [length, h9_4, h4]
  exact intersect_eq_true sqrt _ zero _ _ _ _ ⟨3 / 2, 0, 0⟩ _ _ _
    (by norm_num [sub]) g e

/-- The two triangles `triangleLeft` and `triangleRight`: GJK accepts in its
third iteration and EPA stops after one. -/
lemma intersect_triangles (sqrt : K → K) (hs : IsSqrt sqrt) :
    intersect sqrt 3 zero (triangleLeft : Object K) (triangleRight) =
      .ret (true, 4, ⟨-4, 0, 0⟩) := by
  have h16 : sqrt (16) = 4 := by
    have := sqrt_mul_self hs (4) (by norm_num); norm_num at this; exact this
  have h64 : sqrt (64) = 8 := by
    have := sqrt_mul_self hs (8) (by norm_num); norm_num at this; exact this
  have g : gjkLoop (triangleLeft : Object K) (triangleRight) 3 [] ⟨3, 0, 5⟩ =
      .ret (some [⟨-3, 0, 2⟩, ⟨-3, 0, -6⟩]) := by
    rw [gjkLoop_continue _ _ 2 [] [⟨-3, 0, 2⟩] ⟨3, 0, 5⟩ ⟨-3, 0, 2⟩ ⟨-3, 0, -5⟩
      (by norm_num [minkDiffSupport, supportVector, supportStep, triangleLeft, triangleRight, dot,
        sub, neg, cross, zero])
      (by norm_num [dot, neg])
      (by norm_num [testSimplex, dot, sub, neg, cross, zero])]
    rw [gjkLoop_continue _ _ 1 [⟨-3, 0, 2⟩] [⟨-3, 0, 2⟩, ⟨-3, 0, -6⟩] ⟨-3, 0, -5⟩ ⟨-3, 0, -6⟩
      ⟨120, 0, -72⟩
      (by norm_num [minkDiffSupport, supportVector, supportStep, triangleLeft, triangleRight, dot,
        sub, neg, cross, zero])
      (by norm_num [dot, neg])
      (by norm_num [testSimplex, dot, sub, neg, cross, zero])]
    rw [gjkLoop_accept _ _ 0 [⟨-3, 0, 2⟩, ⟨-3, 0, -6⟩] [⟨-3, 0, 2⟩, ⟨-3, 0, -6⟩] ⟨120, 0, -72⟩
      ⟨-3, 0, -6⟩ ⟨0, 0, 0⟩
      (by norm_num [minkDiffSupport, supportVector, supportStep, triangleLeft, triangleRight, dot,
        sub, neg, cross, zero])
      (by norm_num [dot, neg])
      (by norm_num [testSimplex, dot, sub, neg, cross, zero])]
  have e : epaLoop sqrt (triangleLeft : Object K) (triangleRight) 3 [⟨-3, 0, 2⟩, ⟨-3, 0, -6⟩] =
      .ret (4, ⟨-4, 0, 0⟩) := by
    rw [epaLoop_stop sqrt _ _ 2 [⟨-3, 0, 2⟩, ⟨-3, 0, -6⟩] ⟨.fin (3 / 2), 0, ⟨0, 0, -8⟩⟩ ⟨-4, 0, 0⟩
      (by norm_num [scanEdges, polytopeEdges, distance_line_point, Ext.absDiv, Ext.lt, h16, h64,
        sub, zero])
      (by norm_num [minkDiffSupport, supportVector, supportStep, triangleLeft, triangleRight, dot,
        sub, neg, cross, zero])
      (by norm_num [Ext.subLt, length, h16, h64])]
    norm_num [length, h16, h64]
  exact intersect_eq_true sqrt _ zero _ _ _ _ ⟨3, 0, 5⟩ _ _ _
    (by norm_num [sub]) g e

/-- The unit square with a corner at the origin against the rectangle
`[-2, 1] x [0, 1]` that contains it. -/
lemma intersect_square_in_rectangle (sqrt : K → K) (hs : IsSqrt sqrt) :
    intersect sqrt 2 zero (rectangle 0 0 1 1 : Object K) (rectangle (-2) 0 3 1) =
      .ret (true, 2, ⟨2, 0, 0⟩) := by
  have h4 : sqrt (4) = 2 := by
    have := sqrt_mul_self hs (2) (by norm_num); norm_num at this; exact this
  have h16 : sqrt (16) = 4 := by
    have := sqrt_mul_self hs (4) (by norm_num); norm_num at this; exact this
  have g : gjkLoop (rectangle 0 0 1 1 : Object K) (rectangle (-2) 0 3 1) 2 [] ⟨-2, 0, 0⟩ =
      .ret (some [⟨-1, 0, 0⟩, ⟨3, 0, 0⟩]) := by
    rw [gjkLoop_continue _ _ 1 [] [⟨-1, 0, 0⟩] ⟨-2, 0, 0⟩ ⟨-1, 0, 0⟩ ⟨2, 0, 0⟩
      (by norm_num [minkDiffSupport, supportVector, supportStep, rectangle, dot, sub, neg, cross,
        zero])
      (by norm_num [dot, neg])
      (by norm_num [testSimplex, dot, sub, neg, cross, zero])]
    rw [gjkLoop_accept _ _ 0 [⟨-1, 0, 0⟩] [⟨-1, 0, 0⟩, ⟨3, 0, 0⟩] ⟨2, 0, 0⟩ ⟨3, 0, 0⟩ ⟨0, 0, 0⟩
      (by norm_num [minkDiffSupport, supportVector, supportStep, rectangle, dot, sub, neg, cross,
        zero])
      (by norm_num [dot, neg])
      (by norm_num [testSimplex, dot, sub, neg, cross, zero])]
  have e : epaLoop sqrt (rectangle 0 0 1 1 : Object K) (rectangle (-2) 0 3 1) 2 [⟨-1, 0, 0⟩,
    ⟨3, 0, 0⟩] =
      .ret (2, ⟨2, 0, 0⟩) := by
    rw [epaLoop_stop sqrt _ _ 1 [⟨-1, 0, 0⟩, ⟨3, 0, 0⟩] ⟨.fin (0), 0, ⟨4, 0, 0⟩⟩ ⟨2, 0, 0⟩
      (by norm_num [scanEdges, polytopeEdges, distance_line_point, Ext.absDiv, Ext.lt, h4, h16,
        sub, zero])
      (by norm_num [minkDiffSupport, supportVector, supportStep, rectangle, dot, sub, neg, cross,
        zero])
      (by norm_num [Ext.subLt, length, h4, h16])]
    norm_num [length, h4, h16]
  exact intersect_eq_true sqrt _ zero _ _ _ _ ⟨-2, 0, 0⟩ _ _ _
    (by norm_num [sub]) g e

/-! ## The claims on concrete inputs -/

/-- C1: the triangles `triangleLeft` (in the half-plane `x ≤ 1`) and
`triangleRight` (in the half-plane `x ≥ 3`) lie in the plane `y = 0` and have
no point in common, yet `intersect` returns true for them, with depth 4 and
penetration vector `(-4, 0, 0)`. -/
theorem intersect_true_on_disjoint_triangles :
    (∀ a ∈ (triangleLeft : Object ℝ), a.y = 0 ∧ a.x ≤ 1) ∧
    (∀ b ∈ (triangleRight : Object ℝ), b.y = 0 ∧ 3 ≤ b.x) ∧
    intersect Real.sqrt 3 zero (triangleLeft : Object ℝ) triangleRight =
      .ret (true, 4, ⟨-4, 0, 0⟩) := by
  refine ⟨?_, ?_, intersect_triangles Real.sqrt isSqrt_real⟩
  · intro a ha
    simp only [triangleLeft, List.mem_cons, List.mem_nil_iff, or_false] at ha
    rcases ha with rfl | rfl | rfl <;> norm_num
  · intro b hb
    simp only [triangleRight, List.mem_cons, List.mem_nil_iff, or_false] at hb
    rcases hb with rfl | rfl | rfl <;> norm_num

/-- C2: for the unit square centred at the origin passed as both shapes, which
overlap in every point, `intersect` returns false in its first GJK iteration,
whatever the fuel and the incoming penetration vector. -/
theorem intersect_false_on_same_square (fuel : Nat) (pv0 : Vector ℝ) :
    intersect Real.sqrt (fuel + 1) pv0 (unitSquare (0 : ℝ) 0) (unitSquare 0 0) =
      .ret (false, 0, pv0) := by
  have g : gjkLoop (unitSquare (0 : ℝ) 0) (unitSquare 0 0) (fuel + 1) [] ⟨0, 0, 0⟩ =
      .ret none := by
    rw [gjkLoop_reject _ _ fuel [] ⟨0, 0, 0⟩ ⟨0, 0, 0⟩
      (by norm_num [minkDiffSupport, supportVector, supportStep, unitSquare, dot, sub, neg])
      (by norm_num [dot, neg])]
  exact intersect_eq_false Real.sqrt _ pv0 _ _ _ _ ⟨0, 0, 0⟩ (by norm_num [sub]) g

/-- C3: for the unit square `[0, 1] x [0, 1]` and the rectangle
`[-2, 1] x [0, 1]` that contains it, `intersect` returns true with depth 2 and
penetration vector `(2, 0, 0)`, although the translation `(0, 0, 3/2)`, of
length `3/2 < 2`, already moves the square strictly above the rectangle. -/
theorem intersect_depth_not_minimal :
    intersect Real.sqrt 2 zero (rectangle (0 : ℝ) 0 1 1) (rectangle (-2) 0 3 1) =
      .ret (true, 2, ⟨2, 0, 0⟩) ∧
    ∃ t : Vector ℝ, length Real.sqrt t < 2 ∧
      ∀ a ∈ translate t (rectangle (0 : ℝ) 0 1 1), ∀ b ∈ rectangle (-2 : ℝ) 0 3 1,
        b.z < a.z := by
  refine ⟨intersect_square_in_rectangle Real.sqrt isSqrt_real, ⟨0, 0, 3 / 2⟩, ?_, ?_⟩
  · have h := sqrt_mul_self isSqrt_real (3 / 2 : ℝ) (by norm_num)
    simp only [length]
    norm_num at h ⊢
    rw [h]; norm_num
  · intro a ha b hb
    simp only [translate, rectangle, List.map_cons, List.map_nil, List.mem_cons,
      List.mem_nil_iff, or_false, add] at ha hb
    rcases ha with rfl | rfl | rfl | rfl <;> rcases hb with rfl | rfl | rfl | rfl <;> norm_num

/-- C5: `unitSquareHalfRev` lists the four corners of the unit square centred
at `(1/2, 0, 0)` in cyclic order, and for the unit square centred at the
origin and this list `intersect` returns true with depth `3/2` and
penetration vector `(-3/2, 0, 0)`, not depth `1/2`. -/
theorem intersect_unitSquares_depth_three_halves :
    (unitSquareHalfRev : Object ℝ) = ((unitSquare (1 / 2 : ℝ) 0).rotate 2).reverse ∧
    intersect Real.sqrt 2 zero (unitSquare (0 : ℝ) 0) unitSquareHalfRev =
      .ret (true, 3 / 2, ⟨-3 / 2, 0, 0⟩) := by
  refine ⟨?_, intersect_unitSquare_halfRev Real.sqrt isSqrt_real⟩
  norm_num [unitSquareHalfRev, unitSquare, List.rotate]

/-- The exact first-maximiser property on a concrete shape: the unit square
centred at the origin and the direction `(1, 0, 0)`. -/
theorem supportVector_first_maximizer_witness :
    unitSquare (0 : ℚ) 0 ≠ [] ∧
    ∃ r pre post, supportVector (unitSquare (0 : ℚ) 0) ⟨1, 0, 0⟩ = .ret r ∧
      unitSquare (0 : ℚ) 0 = pre ++ r :: post ∧
      (∀ w ∈ pre, dot w ⟨1, 0, 0⟩ < dot r ⟨1, 0, 0⟩) ∧
      (∀ w ∈ unitSquare (0 : ℚ) 0, dot w ⟨1, 0, 0⟩ ≤ dot r ⟨1, 0, 0⟩) :=
  ⟨List.cons_ne_nil _ _,
    supportVector_first_maximizer (unitSquare 0 0) ⟨1, 0, 0⟩ (List.cons_ne_nil _ _)⟩

/-- The exact extremality property on concrete shapes: the unit squares
centred at the origin and at `(1/2, 0, 0)` and the direction `(1, 0, 0)`. -/
theorem minkDiffSupport_extreme_witness :
    unitSquare (0 : ℚ) 0 ≠ [] ∧ unitSquare (1 / 2 : ℚ) 0 ≠ [] ∧
    ∃ a' ∈ unitSquare (0 : ℚ) 0, ∃ b' ∈ unitSquare (1 / 2 : ℚ) 0,
      minkDiffSupport (unitSquare 0 0) (unitSquare (1 / 2) 0) ⟨1, 0, 0⟩ = .ret (sub a' b') ∧
      ∀ a ∈ unitSquare (0 : ℚ) 0, ∀ b ∈ unitSquare (1 / 2 : ℚ) 0,
        dot (sub a b) ⟨1, 0, 0⟩ ≤ dot (sub a' b') ⟨1, 0, 0⟩ :=
  ⟨List.cons_ne_nil _ _, List.cons_ne_nil _ _,
    minkDiffSupport_extreme (unitSquare 0 0) (unitSquare (1 / 2) 0) ⟨1, 0, 0⟩
      (List.cons_ne_nil _ _) (List.cons_ne_nil _ _)⟩

/-- C10: for the points `(1, 0, 1)` and `(2, 0, 1)`, on the line `z = 1` at
distance 1 from the origin, `distance_line_point` returns 3, while the
perpendicular-distance formula gives 1. -/
theorem distance_line_point_wrong_sign :
    distance_line_point Real.sqrt ((⟨1, 0, 1⟩ : Vector ℝ), ⟨2, 0, 1⟩) zero = .ret (.fin 3) ∧
    perpendicularDistance Real.sqrt (⟨1, 0, 1⟩ : Vector ℝ) ⟨2, 0, 1⟩ zero = 1 := by
  have h1 : Real.sqrt 1 = 1 := Real.sqrt_one
  constructor
  · norm_num [distance_line_point, Ext.absDiv, zero, h1]
  · norm_num [perpendicularDistance, zero, h1]

/-! ## The simplex test, branch by branch -/

/-- In exact arithmetic (`float` read as a field): for a 3-point simplex in
the plane `y = 0` on which `testSimplex` takes neither the
reduce-to-newest-point branch nor an edge branch (`dot_1 < 0` and
`dot_2 < 0`), `dot_triangle` is exactly 0, so the assertion holds, and the
call returns true with the same three points in the simplex (and the
direction `-norm`). -/
theorem testSimplex_inside_triangle (s0 s1 s2 dir : Vector K)
    (h0 : s0.y = 0) (h1 : s1.y = 0) (h2 : s2.y = 0)
    (hred : ¬ (dot (sub s0 s2) (neg s2) ≤ 0 ∧ dot (sub s1 s2) (neg s2) ≤ 0))
    (hd1 : dot (cross (sub s0 s2) (cross (sub s0 s2) (sub s1 s2))) (neg s2) < 0)
    (hd2 : dot (cross (cross (sub s0 s2) (sub s1 s2)) (sub s1 s2)) (neg s2) < 0) :
    dot (cross (sub s0 s2) (sub s1 s2)) (neg s2) = 0 ∧
    testSimplex [s0, s1, s2] dir =
      .ret (true, [s0, s1, s2], neg (cross (sub s0 s2) (sub s1 s2))) := by
  have hz : dot (cross (sub s0 s2) (sub s1 s2)) (neg s2) = 0 := by
    simp only [dot, cross, sub, neg, h0, h1, h2]; ring
  refine ⟨hz, ?_⟩
  simp only [testSimplex, if_neg hred, ge_iff_le, if_neg (not_le.2 hd1), if_neg (not_le.2 hd2),
    hz, lt_irrefl, if_false, if_true]

/-- In exact arithmetic (`float` read as a field: no operation rounds,
overflows or produces NaN): for a 3-point simplex on which the
reduce-to-newest-point test fails, with
`norm = (s0 - s2) x (s1 - s2)`: when `dot_1 ≥ 0` the call leaves
`[s0, s2]`, sets the direction to `(s0 - s2) x norm` and returns true exactly
when `dot_1 = 0`; otherwise, when `dot_2 ≥ 0`, it leaves `[s1, s2]`, sets the
direction to `norm x (s1 - s2)` and returns true exactly when `dot_2 = 0`.
Either direction is perpendicular to its edge and has a non-positive dot
product with the other edge vector. -/
theorem testSimplex_edge_branches (s0 s1 s2 dir : Vector K)
    (hred : ¬ (dot (sub s0 s2) (neg s2) ≤ 0 ∧ dot (sub s1 s2) (neg s2) ≤ 0)) :
    (dot (cross (sub s0 s2) (cross (sub s0 s2) (sub s1 s2))) (neg s2) ≥ 0 →
      testSimplex [s0, s1, s2] dir =
          .ret (decide (dot (cross (sub s0 s2) (cross (sub s0 s2) (sub s1 s2))) (neg s2) = 0),
            [s0, s2], cross (sub s0 s2) (cross (sub s0 s2) (sub s1 s2))) ∧
        dot (cross (sub s0 s2) (cross (sub s0 s2) (sub s1 s2))) (sub s0 s2) = 0 ∧
        dot (cross (sub s0 s2) (cross (sub s0 s2) (sub s1 s2))) (sub s1 s2) ≤ 0) ∧
    (¬ dot (cross (sub s0 s2) (cross (sub s0 s2) (sub s1 s2))) (neg s2) ≥ 0 →
      dot (cross (cross (sub s0 s2) (sub s1 s2)) (sub s1 s2)) (neg s2) ≥ 0 →
      testSimplex [s0, s1, s2] dir =
          .ret (decide (dot (cross (cross (sub s0 s2) (sub s1 s2)) (sub s1 s2)) (neg s2) = 0),
            [s1, s2], cross (cross (sub s0 s2) (sub s1 s2)) (sub s1 s2)) ∧
        dot (cross (cross (sub s0 s2) (sub s1 s2)) (sub s1 s2)) (sub s1 s2) = 0 ∧
        dot (cross (cross (sub s0 s2) (sub s1 s2)) (sub s1 s2)) (sub s0 s2) ≤ 0) := by
  constructor
  · intro hd1
    refine ⟨?_, ?_, ?_⟩
    · simp only [testSimplex, if_neg hred, if_pos hd1]
    · simp only [dot, cross, sub]; ring
    · have key : dot (cross (sub s0 s2) (cross (sub s0 s2) (sub s1 s2))) (sub s1 s2) =
          -((cross (sub s0 s2) (sub s1 s2)).x ^ 2 + (cross (sub s0 s2) (sub s1 s2)).y ^ 2 +
            (cross (sub s0 s2) (sub s1 s2)).z ^ 2) := by
        simp only [dot, cross, sub]; ring
      rw [key]
      nlinarith [sq_nonneg (cross (sub s0 s2) (sub s1 s2)).x,
        sq_nonneg (cross (sub s0 s2) (sub s1 s2)).y, sq_nonneg (cross (sub s0 s2) (sub s1 s2)).z]
  · intro hd1 hd2
    refine ⟨?_, ?_, ?_⟩
    · simp only [testSimplex, if_neg hred, if_neg hd1, if_pos hd2]
    · simp only [dot, cross, sub]; ring
    · have key : dot (cross (cross (sub s0 s2) (sub s1 s2)) (sub s1 s2)) (sub s0 s2) =
          -((cross (sub s0 s2) (sub s1 s2)).x ^ 2 + (cross (sub s0 s2) (sub s1 s2)).y ^ 2 +
            (cross (sub s0 s2) (sub s1 s2)).z ^ 2) := by
        simp only [dot, cross, sub]; ring
      rw [key]
      nlinarith [sq_nonneg (cross (sub s0 s2) (sub s1 s2)).x,
        sq_nonneg (cross (sub s0 s2) (sub s1 s2)).y, sq_nonneg (cross (sub s0 s2) (sub s1 s2)).z]

/-! ## The EPA direction and the returned vector -/

/-- In exact arithmetic (`float` read as a field: no operation rounds,
overflows or produces NaN): for every edge start point `p` and edge vector
`e`, the EPA expansion direction `epaDirection p e = cross(cross(-p, e), e)`
is perpendicular to `e`, has a non-negative dot product with `p`, and a
positive one when `p` and `e` are not parallel (`p x e` is not the zero
vector); and it is the direction of the EPA loop: an iteration that selects
the edge with start point `p` and vector `e` passes `epaDirection p e` to
`minkDiffSupport`. -/
theorem epa_direction_perpendicular_outward (p e : Vector K) :
    (dot (epaDirection p e) e = 0 ∧
      0 ≤ dot (epaDirection p e) p ∧
      (cross p e ≠ zero → 0 < dot (epaDirection p e) p)) ∧
    ∀ (sqrt : K → K) (A B : Object K) (fuel : Nat) (polytope : List (Vector K))
      (min : MinEdge K),
      scanEdges sqrt (polytopeEdges polytope) ⟨.posInf, 0, zero⟩ = .ret min →
      polytope.getD min.iter zero = p → min.edge = e →
      epaLoop sqrt A B (fuel + 1) polytope =
        match minkDiffSupport A B (epaDirection p e) with
        | .ret point =>
          if Ext.subLt min.dist (length sqrt point) (1 / 10000) then
            .ret (length sqrt point, point)
          else epaLoop sqrt A B fuel (insertBefore polytope min.iter point)
        | .assertFail => .assertFail
        | .outOfFuel => .outOfFuel := by
  have key : dot (epaDirection p e) p =
      (cross p e).x ^ 2 + (cross p e).y ^ 2 + (cross p e).z ^ 2 := by
    simp only [epaDirection, dot, cross, neg]; ring
  refine ⟨⟨?_, ?_, ?_⟩, ?_⟩
  · simp only [epaDirection, dot, cross, neg]; ring
  · rw [key]; positivity
  · intro hne
    rw [key]
    by_contra hle
    have hsum : (cross p e).x ^ 2 + (cross p e).y ^ 2 + (cross p e).z ^ 2 = 0 :=
      le_antisymm (not_lt.1 hle) (by positivity)
    have hx : (cross p e).x = 0 := by
      nlinarith [sq_nonneg (cross p e).x, sq_nonneg (cross p e).y, sq_nonneg (cross p e).z]
    have hy : (cross p e).y = 0 := by
      nlinarith [sq_nonneg (cross p e).x, sq_nonneg (cross p e).y, sq_nonneg (cross p e).z]
    have hz : (cross p e).z = 0 := by
      nlinarith [sq_nonneg (cross p e).x, sq_nonneg (cross p e).y, sq_nonneg (cross p e).z]
    apply hne
    cases hc : cross p e with
    | mk cx cy cz =>
      rw [hc] at hx hy hz
      simp only at hx hy hz
      simp only [zero, hx, hy, hz]
  · intro sqrt A B fuel polytope min hscan hp he
    subst hp he
    simp only [epaLoop, hscan, epaDirection]

/-- On non-empty shapes `minkDiffSupport` returns a point. -/
lemma minkDiffSupport_ret (A B : Object K) (d : Vector K) (hA : A ≠ []) (hB : B ≠ []) :
    ∃ p, minkDiffSupport A B d = .ret p := by
  obtain ⟨r, hr, -, -⟩ := supportVector_max A d hA
  obtain ⟨q, hq, -, -⟩ := supportVector_max B (neg d) hB
  exact ⟨sub r q, by simp only [minkDiffSupport, hr, hq]⟩

/-- A point that `minkDiffSupport` returns is a vertex of the first shape
minus a vertex of the second. -/
lemma minkDiffSupport_mem (A B : Object K) (d p : Vector K)
    (h : minkDiffSupport A B d = .ret p) : ∃ a ∈ A, ∃ b ∈ B, p = sub a b := by
  have hA : A ≠ [] := by
    rintro rfl
    simp [minkDiffSupport, supportVector] at h
  have hB : B ≠ [] := by
    rintro rfl
    cases A <;> simp [minkDiffSupport, supportVector] at h
  obtain ⟨r, hr, hrA, -⟩ := supportVector_max A d hA
  obtain ⟨q, hq, hqB, -⟩ := supportVector_max B (neg d) hB
  refine ⟨r, hrA, q, hqB, ?_⟩
  simp only [minkDiffSupport, hr, hq] at h
  injection h with h
  exact h.symm

/-- C20: when the two shapes start with the same vertex, `intersect` returns
false in its first GJK iteration, with depth 0 and the penetration vector as
it was on entry, whatever the other vertices are. -/
theorem intersect_same_front (sqrt : K → K) (fuel : Nat) (pv0 a0 : Vector K)
    (A1 B1 : Object K) :
    intersect sqrt (fuel + 1) pv0 (a0 :: A1) (a0 :: B1) = .ret (false, 0, pv0) := by
  have hd : sub a0 a0 = (⟨0, 0, 0⟩ : Vector K) := by simp [sub]
  obtain ⟨point, hm⟩ :=
    minkDiffSupport_ret (a0 :: A1) (a0 :: B1) ⟨0, 0, 0⟩ (List.cons_ne_nil _ _)
      (List.cons_ne_nil _ _)
  exact intersect_eq_false sqrt _ pv0 a0 A1 a0 B1 ⟨0, 0, 0⟩ hd
    (gjkLoop_reject _ _ fuel [] ⟨0, 0, 0⟩ point hm (by simp [dot, neg]))

/-! ## The branch claims on concrete inputs -/

/-- The exact inside-triangle case on a concrete simplex: the triangle
`(-1, -1)`, `(1, -1)`, `(0, 1)` (as `x`, `z`), which has the origin strictly
inside. -/
theorem testSimplex_inside_triangle_witness :
    ¬ (dot (sub (⟨-1, 0, -1⟩ : Vector ℚ) ⟨0, 0, 1⟩) (neg ⟨0, 0, 1⟩) ≤ 0 ∧
        dot (sub (⟨1, 0, -1⟩ : Vector ℚ) ⟨0, 0, 1⟩) (neg ⟨0, 0, 1⟩) ≤ 0) ∧
    dot (cross (sub (⟨-1, 0, -1⟩ : Vector ℚ) ⟨0, 0, 1⟩)
      (cross (sub ⟨-1, 0, -1⟩ ⟨0, 0, 1⟩) (sub ⟨1, 0, -1⟩ ⟨0, 0, 1⟩))) (neg ⟨0, 0, 1⟩) < 0 ∧
    dot (cross (cross (sub (⟨-1, 0, -1⟩ : Vector ℚ) ⟨0, 0, 1⟩) (sub ⟨1, 0, -1⟩ ⟨0, 0, 1⟩))
      (sub ⟨1, 0, -1⟩ ⟨0, 0, 1⟩)) (neg ⟨0, 0, 1⟩) < 0 ∧
    dot (cross (sub (⟨-1, 0, -1⟩ : Vector ℚ) ⟨0, 0, 1⟩) (sub ⟨1, 0, -1⟩ ⟨0, 0, 1⟩))
      (neg ⟨0, 0, 1⟩) = 0 ∧
    testSimplex [(⟨-1, 0, -1⟩ : Vector ℚ), ⟨1, 0, -1⟩, ⟨0, 0, 1⟩] ⟨0, 0, 1⟩ =
      .ret (true, [⟨-1, 0, -1⟩, ⟨1, 0, -1⟩, ⟨0, 0, 1⟩],
        neg (cross (sub ⟨-1, 0, -1⟩ ⟨0, 0, 1⟩) (sub ⟨1, 0, -1⟩ ⟨0, 0, 1⟩))) :=
  have hred : ¬ (dot (sub (⟨-1, 0, -1⟩ : Vector ℚ) ⟨0, 0, 1⟩) (neg ⟨0, 0, 1⟩) ≤ 0 ∧
      dot (sub (⟨1, 0, -1⟩ : Vector ℚ) ⟨0, 0, 1⟩) (neg ⟨0, 0, 1⟩) ≤ 0) := by
    norm_num [dot, sub, neg]
  have hd1 : dot (cross (sub (⟨-1, 0, -1⟩ : Vector ℚ) ⟨0, 0, 1⟩)
      (cross (sub ⟨-1, 0, -1⟩ ⟨0, 0, 1⟩) (sub ⟨1, 0, -1⟩ ⟨0, 0, 1⟩))) (neg ⟨0, 0, 1⟩) < 0 := by
    norm_num [dot, sub, neg, cross]
  have hd2 : dot (cross (cross (sub (⟨-1, 0, -1⟩ : Vector ℚ) ⟨0, 0, 1⟩)
      (sub ⟨1, 0, -1⟩ ⟨0, 0, 1⟩)) (sub ⟨1, 0, -1⟩ ⟨0, 0, 1⟩)) (neg ⟨0, 0, 1⟩) < 0 := by
    norm_num [dot, sub, neg, cross]
  ⟨hred, hd1, hd2,
    testSimplex_inside_triangle ⟨-1, 0, -1⟩ ⟨1, 0, -1⟩ ⟨0, 0, 1⟩ ⟨0, 0, 1⟩ rfl rfl rfl hred hd1 hd2⟩

/-- The exact edge branches on two concrete simplices, one for each branch:
the first ends in the branch of `dot_1` with direction `(3, 0, -1)`, the
second in the branch of `dot_2` with direction `(1, 0, 1)`. -/
theorem testSimplex_edge_branches_witness :
    (¬ (dot (sub (⟨-2, 0, -2⟩ : Vector ℚ) ⟨-1, 0, 1⟩) (neg ⟨-1, 0, 1⟩) ≤ 0 ∧
        dot (sub (⟨-2, 0, -1⟩ : Vector ℚ) ⟨-1, 0, 1⟩) (neg ⟨-1, 0, 1⟩) ≤ 0) ∧
      testSimplex [(⟨-2, 0, -2⟩ : Vector ℚ), ⟨-2, 0, -1⟩, ⟨-1, 0, 1⟩] ⟨0, 0, 1⟩ =
        .ret (false, [⟨-2, 0, -2⟩, ⟨-1, 0, 1⟩], ⟨3, 0, -1⟩)) ∧
    (¬ (dot (sub (⟨-2, 0, -2⟩ : Vector ℚ) ⟨-1, 0, -2⟩) (neg ⟨-1, 0, -2⟩) ≤ 0 ∧
        dot (sub (⟨-2, 0, -1⟩ : Vector ℚ) ⟨-1, 0, -2⟩) (neg ⟨-1, 0, -2⟩) ≤ 0) ∧
      testSimplex [(⟨-2, 0, -2⟩ : Vector ℚ), ⟨-2, 0, -1⟩, ⟨-1, 0, -2⟩] ⟨0, 0, 1⟩ =
        .ret (false, [⟨-2, 0, -1⟩, ⟨-1, 0, -2⟩], ⟨1, 0, 1⟩)) := by
  have hred1 : ¬ (dot (sub (⟨-2, 0, -2⟩ : Vector ℚ) ⟨-1, 0, 1⟩) (neg ⟨-1, 0, 1⟩) ≤ 0 ∧
      dot (sub (⟨-2, 0, -1⟩ : Vector ℚ) ⟨-1, 0, 1⟩) (neg ⟨-1, 0, 1⟩) ≤ 0) := by
    norm_num [dot, sub, neg]
  have hred2 : ¬ (dot (sub (⟨-2, 0, -2⟩ : Vector ℚ) ⟨-1, 0, -2⟩) (neg ⟨-1, 0, -2⟩) ≤ 0 ∧
      dot (sub (⟨-2, 0, -1⟩ : Vector ℚ) ⟨-1, 0, -2⟩) (neg ⟨-1, 0, -2⟩) ≤ 0) := by
    norm_num [dot, sub, neg]
  have t1 := ((testSimplex_edge_branches (⟨-2, 0, -2⟩ : Vector ℚ) ⟨-2, 0, -1⟩ ⟨-1, 0, 1⟩
    ⟨0, 0, 1⟩ hred1).1 (by norm_num [dot, sub, neg, cross])).1
  have t2 := ((testSimplex_edge_branches (⟨-2, 0, -2⟩ : Vector ℚ) ⟨-2, 0, -1⟩ ⟨-1, 0, -2⟩
    ⟨0, 0, 1⟩ hred2).2 (by norm_num [dot, sub, neg, cross])
    (by norm_num [dot, sub, neg, cross])).1
  refine ⟨⟨hred1, ?_⟩, ⟨hred2, ?_⟩⟩
  · rw [t1]; norm_num [dot, sub, neg, cross]
  · rw [t2]; norm_num [dot, sub, neg, cross]

/-- The exact direction on the first EPA iteration of the run on `triangleP`
and `triangleQ`: the polytope is `(1, 2)`, `(-3, -1)`, `(1, -1)` (as `x`,
`z`), the selected edge starts at `p = (1, 0, -1)` with the vector
`e = (0, 0, 3)`, which are not parallel, and the direction passed to
`minkDiffSupport` is `epaDirection p e = (9, 0, 0)`. -/
theorem epa_direction_perpendicular_outward_witness :
    cross (⟨1, 0, -1⟩ : Vector ℝ) ⟨0, 0, 3⟩ ≠ zero ∧
    epaDirection (⟨1, 0, -1⟩ : Vector ℝ) ⟨0, 0, 3⟩ = ⟨9, 0, 0⟩ ∧
    dot (epaDirection (⟨1, 0, -1⟩ : Vector ℝ) ⟨0, 0, 3⟩) ⟨0, 0, 3⟩ = 0 ∧
    0 ≤ dot (epaDirection (⟨1, 0, -1⟩ : Vector ℝ) ⟨0, 0, 3⟩) ⟨1, 0, -1⟩ ∧
    0 < dot (epaDirection (⟨1, 0, -1⟩ : Vector ℝ) ⟨0, 0, 3⟩) ⟨1, 0, -1⟩ ∧
    scanEdges Real.sqrt (polytopeEdges [(⟨1, 0, 2⟩ : Vector ℝ), ⟨-3, 0, -1⟩, ⟨1, 0, -1⟩])
      ⟨.posInf, 0, zero⟩ = .ret ⟨.fin (1 / 3), 2, ⟨0, 0, 3⟩⟩ ∧
    epaLoop Real.sqrt (triangleP : Object ℝ) triangleQ 1
        [⟨1, 0, 2⟩, ⟨-3, 0, -1⟩, ⟨1, 0, -1⟩] =
      match minkDiffSupport (triangleP : Object ℝ) triangleQ
        (epaDirection ⟨1, 0, -1⟩ ⟨0, 0, 3⟩) with
      | .ret point =>
        if Ext.subLt (.fin (1 / 3)) (length Real.sqrt point) (1 / 10000) then
          .ret (length Real.sqrt point, point)
        else epaLoop Real.sqrt triangleP triangleQ 0
          (insertBefore [⟨1, 0, 2⟩, ⟨-3, 0, -1⟩, ⟨1, 0, -1⟩] 2 point)
      | .assertFail => .assertFail
      | .outOfFuel => .outOfFuel :=
  have hne : cross (⟨1, 0, -1⟩ : Vector ℝ) ⟨0, 0, 3⟩ ≠ zero := by
    norm_num [cross, zero]
  have h9 : Real.sqrt 9 = 3 := by
    have := sqrt_mul_self isSqrt_real (3 : ℝ) (by norm_num); norm_num at this; exact this
  have h16 : Real.sqrt 16 = 4 := by
    have := sqrt_mul_self isSqrt_real (4 : ℝ) (by norm_num); norm_num at this; exact this
  have h25 : Real.sqrt 25 = 5 := by
    have := sqrt_mul_self isSqrt_real (5 : ℝ) (by norm_num); norm_num at this; exact this
  have hscan : scanEdges Real.sqrt
      (polytopeEdges [(⟨1, 0, 2⟩ : Vector ℝ), ⟨-3, 0, -1⟩, ⟨1, 0, -1⟩]) ⟨.posInf, 0, zero⟩ =
      .ret ⟨.fin (1 / 3), 2, ⟨0, 0, 3⟩⟩ := by
    norm_num [scanEdges, polytopeEdges, distance_line_point, Ext.absDiv, Ext.lt, h9, h16, h25,
      sub, zero]
  ⟨hne, by norm_num [epaDirection, cross, neg],
    (epa_direction_perpendicular_outward ⟨1, 0, -1⟩ ⟨0, 0, 3⟩).1.1,
    (epa_direction_perpendicular_outward ⟨1, 0, -1⟩ ⟨0, 0, 3⟩).1.2.1,
    (epa_direction_perpendicular_outward ⟨1, 0, -1⟩ ⟨0, 0, 3⟩).1.2.2 hne, hscan,
    (epa_direction_perpendicular_outward ⟨1, 0, -1⟩ ⟨0, 0, 3⟩).2 Real.sqrt triangleP triangleQ 0
      [⟨1, 0, 2⟩, ⟨-3, 0, -1⟩, ⟨1, 0, -1⟩] ⟨.fin (1 / 3), 2, ⟨0, 0, 3⟩⟩ hscan rfl rfl⟩

/-- C13: two simplices in the plane `y = 0` on which `testSimplex` returns
true although the origin is not on the segment that remains: the degenerate
triangle `(-3, 2)`, `(-3, -6)`, `(-3, -6)` (as `x`, `z`) with the direction
`(120, 0, -72)`, which is the third call of the run on `triangleLeft` and
`triangleRight`, and the triangle `(2, 0)`, `(0, 1)`, `(1, 0)`. -/
theorem testSimplex_true_without_origin :
    testSimplex [(⟨-3, 0, 2⟩ : Vector ℝ), ⟨-3, 0, -6⟩, ⟨-3, 0, -6⟩] ⟨120, 0, -72⟩ =
      .ret (true, [⟨-3, 0, 2⟩, ⟨-3, 0, -6⟩], ⟨0, 0, 0⟩) ∧
    ¬ onSegment (⟨-3, 0, 2⟩ : Vector ℝ) ⟨-3, 0, -6⟩ zero ∧
    testSimplex [(⟨2, 0, 0⟩ : Vector ℝ), ⟨0, 0, 1⟩, ⟨1, 0, 0⟩] ⟨1, 0, 0⟩ =
      .ret (true, [⟨2, 0, 0⟩, ⟨1, 0, 0⟩], ⟨0, 0, -1⟩) ∧
    ¬ onSegment (⟨2, 0, 0⟩ : Vector ℝ) ⟨1, 0, 0⟩ zero := by
  refine ⟨?_, ?_, ?_, ?_⟩
  · norm_num [testSimplex, dot, sub, neg, cross, zero]
  · rintro ⟨t, -, -, h⟩
    simp only [zero, Vector.mk.injEq] at h
    linarith [h.1]
  · norm_num [testSimplex, dot, sub, neg, cross, zero]
  · rintro ⟨t, h0, h1, h⟩
    simp only [zero, Vector.mk.injEq] at h
    linarith [h.1]

/-- C14: the 2-point simplex `(-3, 2)`, `(-3, -6)` (as `x`, `z`) with the
incoming direction `(-3, 0, -5)`, the second call of the run on `triangleLeft`
and `triangleRight`: the test `(s0 - s1) . (-s1) > 0` holds, the simplex is
kept, and the new direction `(120, 0, -72)` has dot product `-576` with the
segment `s0 - s1` and `-72` with `-s1`. -/
theorem testSimplex_segment_direction_not_perpendicular :
    dot (sub (⟨-3, 0, 2⟩ : Vector ℝ) ⟨-3, 0, -6⟩) (neg ⟨-3, 0, -6⟩) > 0 ∧
    testSimplex [(⟨-3, 0, 2⟩ : Vector ℝ), ⟨-3, 0, -6⟩] ⟨-3, 0, -5⟩ =
      .ret (false, [⟨-3, 0, 2⟩, ⟨-3, 0, -6⟩], ⟨120, 0, -72⟩) ∧
    dot (⟨120, 0, -72⟩ : Vector ℝ) (sub ⟨-3, 0, 2⟩ ⟨-3, 0, -6⟩) = -576 ∧
    dot (⟨120, 0, -72⟩ : Vector ℝ) (neg ⟨-3, 0, -6⟩) = -72 := by
  refine ⟨?_, ?_, ?_, ?_⟩
  · norm_num [dot, sub, neg]
  · norm_num [testSimplex, dot, sub, neg, cross, zero]
  · norm_num [dot, sub]
  · norm_num [dot, neg]

/-- C17: in the run on `triangleP` and `triangleQ` GJK ends with the polytope
`(1, 2)`, `(-3, -1)`, `(1, -1)` (as `x`, `z`); the first EPA iteration selects
the edge that starts at position 2, from `(1, -1)` to `(1, 2)`, the support
point is `(1, 0)`, and the insertion puts it before the start point
`(1, -1)`, between `(-3, -1)` and `(1, -1)`, not after it. -/
theorem epa_insert_before_edge_start :
    gjkLoop (triangleP : Object ℝ) triangleQ 3 [] ⟨1, 0, 1⟩ =
      .ret (some [⟨1, 0, 2⟩, ⟨-3, 0, -1⟩, ⟨1, 0, -1⟩]) ∧
    scanEdges Real.sqrt (polytopeEdges [(⟨1, 0, 2⟩ : Vector ℝ), ⟨-3, 0, -1⟩, ⟨1, 0, -1⟩])
      ⟨.posInf, 0, zero⟩ = .ret ⟨.fin (1 / 3), 2, ⟨0, 0, 3⟩⟩ ∧
    minkDiffSupport (triangleP : Object ℝ) triangleQ
      (cross (cross (neg ⟨1, 0, -1⟩) ⟨0, 0, 3⟩) ⟨0, 0, 3⟩) = .ret ⟨1, 0, 0⟩ ∧
    insertBefore [(⟨1, 0, 2⟩ : Vector ℝ), ⟨-3, 0, -1⟩, ⟨1, 0, -1⟩] 2 ⟨1, 0, 0⟩ =
      [⟨1, 0, 2⟩, ⟨-3, 0, -1⟩, ⟨1, 0, 0⟩, ⟨1, 0, -1⟩] := by
  have h9 : Real.sqrt 9 = 3 := by
    have := sqrt_mul_self isSqrt_real (3 : ℝ) (by norm_num); norm_num at this; exact this
  have h16 : Real.sqrt 16 = 4 := by
    have := sqrt_mul_self isSqrt_real (4 : ℝ) (by norm_num); norm_num at this; exact this
  have h25 : Real.sqrt 25 = 5 := by
    have := sqrt_mul_self isSqrt_real (5 : ℝ) (by norm_num); norm_num at this; exact this
  refine ⟨?_, ?_, ?_, ?_⟩
  · rw [gjkLoop_continue _ _ 2 [] [⟨1, 0, 2⟩] ⟨1, 0, 1⟩ ⟨1, 0, 2⟩ ⟨-1, 0, -1⟩
      (by norm_num [minkDiffSupport, supportVector, supportStep, triangleP, triangleQ, dot,
        sub, neg])
      (by norm_num [dot, neg])
      (by norm_num [testSimplex, dot, sub, neg, cross, zero])]
    rw [gjkLoop_continue _ _ 1 [⟨1, 0, 2⟩] [⟨1, 0, 2⟩, ⟨-3, 0, -1⟩] ⟨-1, 0, -1⟩ ⟨-3, 0, -1⟩
      ⟨5, 0, -5⟩
      (by norm_num [minkDiffSupport, supportVector, supportStep, triangleP, triangleQ, dot,
        sub, neg])
      (by norm_num [dot, neg])
      (by norm_num [testSimplex, dot, sub, neg, cross, zero])]
    rw [gjkLoop_accept _ _ 0 [⟨1, 0, 2⟩, ⟨-3, 0, -1⟩] [⟨1, 0, 2⟩, ⟨-3, 0, -1⟩, ⟨1, 0, -1⟩]
      ⟨5, 0, -5⟩ ⟨1, 0, -1⟩ ⟨0, 12, 0⟩
      (by norm_num [minkDiffSupport, supportVector, supportStep, triangleP, triangleQ, dot,
        sub, neg])
      (by norm_num [dot, neg])
      (by norm_num [testSimplex, dot, sub, neg, cross, zero])]
  · norm_num [scanEdges, polytopeEdges, distance_line_point, Ext.absDiv, Ext.lt, h9, h16, h25,
      sub, zero]
  · norm_num [minkDiffSupport, supportVector, supportStep, triangleP, triangleQ, dot, sub, neg,
      cross]
  · norm_num [insertBefore]

/-! ## No assertion fails on planar input -/

/-- With all three points in the plane `y = 0`, the triangle normal has a zero
dot product with any of them. -/
lemma dot_norm_planar (s0 s1 s2 : Vector K) (h0 : s0.y = 0) (h1 : s1.y = 0) (h2 : s2.y = 0) :
    dot (cross (sub s0 s2) (sub s1 s2)) (neg s2) = 0 := by
  simp only [dot, cross, sub, neg, h0, h1, h2]; ring

lemma minkDiffSupport_planar (A B : Object K) (d p : Vector K)
    (hpA : ∀ a ∈ A, a.y = 0) (hpB : ∀ b ∈ B, b.y = 0)
    (h : minkDiffSupport A B d = .ret p) : p.y = 0 := by
  obtain ⟨a, ha, b, hb, rfl⟩ := minkDiffSupport_mem A B d p h
  simp [sub, hpA a ha, hpB b hb]

/-- On a planar simplex of 1, 2 or 3 points `testSimplex` returns, the simplex
it leaves is planar and not empty, and has at most 2 points when the result is
false. -/
lemma testSimplex_planar (simplex : List (Vector K)) (dir : Vector K)
    (hp : ∀ p ∈ simplex, p.y = 0) (h1 : 1 ≤ simplex.length) (h3 : simplex.length ≤ 3) :
    ∃ b s1 d1, testSimplex simplex dir = .ret (b, s1, d1) ∧ (∀ p ∈ s1, p.y = 0) ∧
      1 ≤ s1.length ∧ (b = false → s1.length ≤ 2) := by
  rcases simplex with _ | ⟨s0, _ | ⟨s1, _ | ⟨s2, _ | ⟨s3, rest⟩⟩⟩⟩
  · simp at h1
  · exact ⟨_, _, _, rfl, hp, by simp, by simp⟩
  · simp only [testSimplex]
    split_ifs with hc
    · exact ⟨_, _, _, rfl, hp, by simp, by simp⟩
    · refine ⟨_, _, _, rfl, ?_, by simp, by simp⟩
      intro p hm
      simp only [List.mem_singleton] at hm
      rw [hm]
      exact hp s1 (by simp)
  · have hy0 : s0.y = 0 := hp s0 (by simp)
    have hy1 : s1.y = 0 := hp s1 (by simp)
    have hy2 : s2.y = 0 := hp s2 (by simp)
    have hz := dot_norm_planar s0 s1 s2 hy0 hy1 hy2
    simp only [testSimplex, hz, if_true]
    split_ifs with hc hd1 hd2
    · refine ⟨_, _, _, rfl, ?_, by simp, by simp⟩
      intro p hm
      simp only [List.mem_singleton] at hm
      rw [hm]; exact hy2
    · refine ⟨_, _, _, rfl, ?_, by simp, by simp⟩
      intro p hm
      simp only [List.mem_cons, List.mem_singleton, List.mem_nil_iff, or_false] at hm
      rcases hm with rfl | rfl
      · exact hy0
      · exact hy2
    · refine ⟨_, _, _, rfl, ?_, by simp, by simp⟩
      intro p hm
      simp only [List.mem_cons, List.mem_singleton, List.mem_nil_iff, or_false] at hm
      rcases hm with rfl | rfl
      · exact hy1
      · exact hy2
    all_goals exact ⟨_, _, _, rfl, hp, by simp, by simp⟩
  · simp at h3

/-- On non-empty planar shapes the GJK loop, entered with a planar simplex of
at most 2 points, fails no assertion, and a simplex it accepts is planar. -/
lemma gjkLoop_planar (A B : Object K) (hA : A ≠ []) (hB : B ≠ [])
    (hpA : ∀ a ∈ A, a.y = 0) (hpB : ∀ b ∈ B, b.y = 0) (fuel : Nat)
    (simplex : List (Vector K)) (dir : Vector K)
    (hp : ∀ p ∈ simplex, p.y = 0) (h2 : simplex.length ≤ 2) :
    gjkLoop A B fuel simplex dir ≠ .assertFail ∧
      ∀ s, gjkLoop A B fuel simplex dir = .ret (some s) → ∀ p ∈ s, p.y = 0 := by
  induction fuel generalizing simplex dir with
  | zero => simp [gjkLoop]
  | succ n ih =>
    obtain ⟨point, hm⟩ := minkDiffSupport_ret A B dir hA hB
    have hpy := minkDiffSupport_planar A B dir point hpA hpB hm
    simp only [gjkLoop, hm]
    split_ifs with hc
    · simp
    · have hp1 : ∀ p ∈ simplex ++ [point], p.y = 0 := by
        intro p hmem
        rcases List.mem_append.1 hmem with h | h
        · exact hp p h
        · simp only [List.mem_singleton] at h
          rw [h]; exact hpy
      obtain ⟨b, s1, d1, ht, hps1, -, hlen⟩ :=
        testSimplex_planar (simplex ++ [point]) dir hp1 (by simp) (by simp; omega)
      rw [ht]
      cases b with
      | true =>
        simp only
        refine ⟨by simp, ?_⟩
        intro s hs
        injection hs with hs
        injection hs with hs
        rw [← hs]; exact hps1
      | false =>
        simp only
        exact ih s1 d1 hps1 (hlen rfl)

lemma polytopeEdges_planar (polytope : List (Vector K)) (hp : ∀ p ∈ polytope, p.y = 0)
    (x : Nat × Vector K × Vector K) (hx : x ∈ polytopeEdges polytope) :
    x.2.1.y = 0 ∧ x.2.2.y = 0 := by
  have h1 := List.snd_mem_of_mem_enum hx
  have h2 := List.of_mem_zip (a := x.2.1) (b := x.2.2) h1
  exact ⟨hp _ h2.1, hp _ (List.mem_rotate.1 h2.2)⟩

lemma scanEdges_planar (sqrt : K → K) (edges : List (Nat × Vector K × Vector K))
    (hp : ∀ x ∈ edges, x.2.1.y = 0 ∧ x.2.2.y = 0) (min : MinEdge K) :
    ∃ m, scanEdges sqrt edges min = .ret m := by
  induction edges generalizing min with
  | nil => exact ⟨min, rfl⟩
  | cons e rest ih =>
    obtain ⟨i, b, e⟩ := e
    have hbe := hp (i, b, e) (by simp)
    have hd : distance_line_point sqrt (b, e) zero =
        .ret (Ext.absDiv ((e.z - b.z) * (zero : Vector K).x - (e.x - b.x) * (zero : Vector K).z +
          e.x * b.z + e.z * b.x) (sqrt ((e.z - b.z) ^ 2 + (e.x - b.x) ^ 2))) := by
      have hz : (zero : Vector K).y = 0 := rfl
      have hb : b.y = 0 := hbe.1
      have he : e.y = 0 := hbe.2
      simp only [distance_line_point, hb, he, hz, and_self, if_true]
    simp only [scanEdges, hd]
    exact ih (fun x hx => hp x (by simp [hx])) _

lemma insertBefore_planar (polytope : List (Vector K)) (iter : Nat) (point : Vector K)
    (hp : ∀ p ∈ polytope, p.y = 0) (hpt : point.y = 0) :
    ∀ p ∈ insertBefore polytope iter point, p.y = 0 := by
  intro p hm
  simp only [insertBefore, List.mem_append, List.mem_cons] at hm
  rcases hm with h | rfl | h
  · exact hp p (List.mem_of_mem_take h)
  · exact hpt
  · exact hp p (List.mem_of_mem_drop h)

/-- On planar shapes the EPA loop, entered with a planar polytope, fails no
assertion. -/
lemma epaLoop_planar (sqrt : K → K) (A B : Object K) (hA : A ≠ []) (hB : B ≠ [])
    (hpA : ∀ a ∈ A, a.y = 0) (hpB : ∀ b ∈ B, b.y = 0) (fuel : Nat)
    (polytope : List (Vector K)) (hp : ∀ p ∈ polytope, p.y = 0) :
    epaLoop sqrt A B fuel polytope ≠ .assertFail := by
  induction fuel generalizing polytope with
  | zero => simp [epaLoop]
  | succ n ih =>
    obtain ⟨min, hs⟩ := scanEdges_planar sqrt (polytopeEdges polytope)
      (polytopeEdges_planar polytope hp) ⟨.posInf, 0, zero⟩
    obtain ⟨point, hm⟩ := minkDiffSupport_ret A B
      (cross (cross (neg (polytope.getD min.iter zero)) min.edge) min.edge) hA hB
    have hpy := minkDiffSupport_planar A B _ point hpA hpB hm
    simp only [epaLoop, hs, hm]
    split_ifs with hc
    · simp
    · exact ih _ (insertBefore_planar polytope min.iter point hp hpy)

/-- In exact arithmetic (`float` read as a field): for non-empty shapes whose
vertices all have `y = 0`, no run of `intersect` ends in a failed assertion,
whatever the fuel: `testSimplex` is only called with 1, 2 or 3 points, its
planarity assertion holds, and `distance_line_point` only receives points
with `y = 0`. -/
theorem intersect_no_assertion_failure (sqrt : K → K) (fuel : Nat) (pv0 : Vector K)
    (A B : Object K) (hA : A ≠ []) (hB : B ≠ [])
    (hpA : ∀ a ∈ A, a.y = 0) (hpB : ∀ b ∈ B, b.y = 0) :
    intersect sqrt fuel pv0 A B ≠ .assertFail := by
  cases A with
  | nil => exact absurd rfl hA
  | cons a0 A1 =>
    cases B with
    | nil => exact absurd rfl hB
    | cons b0 B1 =>
      obtain ⟨hg1, hg2⟩ := gjkLoop_planar (a0 :: A1) (b0 :: B1) hA hB hpA hpB fuel []
        (sub b0 a0) (by simp) (by simp)
      simp only [intersect]
      split
      · simp
      · rename_i simplex hg
        have he := epaLoop_planar sqrt (a0 :: A1) (b0 :: B1) hA hB hpA hpB fuel simplex
          (hg2 simplex hg)
        split
        · simp
        · rename_i hea
          exact absurd hea he
        · simp
      · rename_i hga
        exact absurd hga hg1
      · simp

/-- The exact no-assertion-failure property on a concrete input: the unit
squares centred at the origin and at `(1/2, 0, 0)`. -/
theorem intersect_no_assertion_failure_witness :
    unitSquare (0 : ℝ) 0 ≠ [] ∧ unitSquare (1 / 2 : ℝ) 0 ≠ [] ∧
    (∀ a ∈ unitSquare (0 : ℝ) 0, a.y = 0) ∧ (∀ b ∈ unitSquare (1 / 2 : ℝ) 0, b.y = 0) ∧
    intersect Real.sqrt 2 zero (unitSquare (0 : ℝ) 0) (unitSquare (1 / 2) 0) ≠ .assertFail :=
  have hpA : ∀ a ∈ unitSquare (0 : ℝ) 0, a.y = 0 := by
    intro a ha
    simp only [unitSquare, List.mem_cons, List.mem_nil_iff, or_false] at ha
    rcases ha with rfl | rfl | rfl | rfl <;> rfl
  have hpB : ∀ b ∈ unitSquare (1 / 2 : ℝ) 0, b.y = 0 := by
    intro b hb
    simp only [unitSquare, List.mem_cons, List.mem_nil_iff, or_false] at hb
    rcases hb with rfl | rfl | rfl | rfl <;> rfl
  ⟨List.cons_ne_nil _ _, List.cons_ne_nil _ _, hpA, hpB,
    intersect_no_assertion_failure Real.sqrt 2 zero _ _ (List.cons_ne_nil _ _)
      (List.cons_ne_nil _ _) hpA hpB⟩

/-! ## A run that never leaves the EPA loop -/

lemma sqrt_pos_of_pos {sqrt : K → K} (hs : IsSqrt sqrt) (x : K) (hx : 0 < x) : 0 < sqrt x := by
  have h1 := hs.sq x (le_of_lt hx)
  have h2 := hs.nonneg x
  rcases eq_or_lt_of_le h2 with h | h
  · rw [← h] at h1; simp at h1; exact absurd h1.symm (ne_of_gt hx)
  · exact h

lemma sqrt_zero_eq {sqrt : K → K} (hs : IsSqrt sqrt) : sqrt 0 = 0 := by
  have h1 := hs.sq 0 (le_refl 0)
  exact mul_self_eq_zero.1 h1

/-- An upper bound on a square root from the square of the bound. -/
lemma sqrt_le_of_le_sq {sqrt : K → K} (hs : IsSqrt sqrt) (x r : K) (hx : 0 ≤ x) (hr : 0 ≤ r)
    (h : x ≤ r * r) : sqrt x ≤ r := by
  have h1 := hs.sq x hx
  have h2 := hs.nonneg x
  by_contra hlt
  have hlt1 : r < sqrt x := not_le.1 hlt
  nlinarith [mul_lt_mul'' hlt1 hlt1 hr hr]

/-- Comparing two quotients by square roots through their squares. -/
lemma div_sqrt_lt_iff {sqrt : K → K} (hs : IsSqrt sqrt) (a b x y : K) (ha : 0 ≤ a)
    (hb : 0 ≤ b) (hx : 0 < x) (hy : 0 < y) :
    a / sqrt x < b / sqrt y ↔ a * a * y < b * b * x := by
  have hsx := sqrt_pos_of_pos hs x hx
  have hsy := sqrt_pos_of_pos hs y hy
  have hx2 := hs.sq x (le_of_lt hx)
  have hy2 := hs.sq y (le_of_lt hy)
  rw [div_lt_div_iff₀ hsx hsy]
  have h1 : a * sqrt y * (a * sqrt y) = a * a * y := by
    have h : a * sqrt y * (a * sqrt y) = a * a * (sqrt y * sqrt y) := by ring
    rw [h, hy2]
  have h2 : b * sqrt x * (b * sqrt x) = b * b * x := by
    have h : b * sqrt x * (b * sqrt x) = b * b * (sqrt x * sqrt x) := by ring
    rw [h, hx2]
  rw [← h1, ← h2]
  exact (mul_self_lt_mul_self_iff (mul_nonneg ha (le_of_lt hsy))
    (mul_nonneg hb (le_of_lt hsx)))

/-- Scanning a list of edges in two parts. -/
lemma scanEdges_append (sqrt : K → K) (l1 l2 : List (Nat × Vector K × Vector K))
    (min m1 : MinEdge K) (h : scanEdges sqrt l1 min = .ret m1) :
    scanEdges sqrt (l1 ++ l2) min = scanEdges sqrt l2 m1 := by
  induction l1 generalizing min with
  | nil =>
    simp only [scanEdges] at h
    injection h with h
    rw [h]; rfl
  | cons e rest ih =>
    obtain ⟨i, b, e⟩ := e
    simp only [List.cons_append, scanEdges] at h ⊢
    cases hd : distance_line_point sqrt (b, e) zero with
    | ret dist =>
      rw [hd] at h
      simp only at h ⊢
      exact ih _ h
    | assertFail => rw [hd] at h; cases h
    | outOfFuel => rw [hd] at h; cases h

/-- The edges from the repeated support point to itself have no finite
distance and leave the minimum as it is. -/
lemma scanEdges_degenerate {sqrt : K → K} (hs : IsSqrt sqrt) (k c : Nat) (min : MinEdge K) :
    scanEdges sqrt
        (List.enumFrom c (List.replicate k ((⟨-2, 0, -1⟩ : Vector K), (⟨-2, 0, -1⟩ : Vector K))))
        min = .ret min := by
  induction k generalizing c with
  | zero => rfl
  | succ n ih =>
    have h0 := sqrt_zero_eq hs
    simp only [List.replicate_succ, List.enumFrom_cons, scanEdges]
    have hd : distance_line_point sqrt ((⟨-2, 0, -1⟩ : Vector K), (⟨-2, 0, -1⟩ : Vector K)) zero =
        .ret .posInf := by
      norm_num [distance_line_point, Ext.absDiv, zero, h0]
    rw [hd]
    simp only [Ext.lt]
    exact ih (c + 1)

omit [LinearOrderedField K] in
lemma zip_stuck (k : Nat) (p last q0 : Vector K) :
    List.zip (List.replicate (k + 1) p ++ [last]) (List.replicate k p ++ [last] ++ [q0]) =
      List.replicate k (p, p) ++ [(p, last), (last, q0)] := by
  induction k with
  | zero => rfl
  | succ n ih =>
    simp only [List.replicate_succ, List.cons_append, List.zip_cons_cons] at ih ⊢
    rw [ih]

lemma polytopeEdges_stuck (k : Nat) :
    polytopeEdges (stuckPolytope k : List (Vector K)) =
      [(0, ⟨3, 0, 3⟩, ⟨-3, 0, -6⟩), (1, ⟨-3, 0, -6⟩, ⟨-2, 0, -1⟩)] ++
        (List.enumFrom 2 (List.replicate k ((⟨-2, 0, -1⟩ : Vector K), (⟨-2, 0, -1⟩ : Vector K))) ++
          [(k + 2, ⟨-2, 0, -1⟩, ⟨-4, 0, -3⟩), (k + 3, ⟨-4, 0, -3⟩, ⟨3, 0, 3⟩)]) := by
  have hz := zip_stuck k (⟨-2, 0, -1⟩ : Vector K) ⟨-4, 0, -3⟩ ⟨3, 0, 3⟩
  have hrot : (stuckPolytope k : List (Vector K)).rotate 1 =
      ⟨-3, 0, -6⟩ :: ⟨-2, 0, -1⟩ :: (List.replicate k ⟨-2, 0, -1⟩ ++ [⟨-4, 0, -3⟩] ++ [⟨3, 0, 3⟩]) := by
    simp [stuckPolytope, List.rotate_cons_succ, List.replicate_succ]
  rw [polytopeEdges, hrot]
  simp only [stuckPolytope, List.zip_cons_cons, hz, List.enum, List.enumFrom_cons,
    List.enumFrom_append, List.length_replicate, List.enumFrom_nil, List.cons_append,
    List.nil_append]
  have e0 : (0 + 1 : Nat) = 1 := rfl
  have e1 : (0 + 1 + 1 : Nat) = 2 := rfl
  have e2 : 0 + 1 + 1 + k = k + 2 := by omega
  have e3 : 0 + 1 + 1 + k + 1 = k + 3 := by omega
  rw [e3, e2, e1, e0]

/-- The scan over the edges of `stuckPolytope k` selects the closing edge,
from the last point `(-4, 0, -3)` back to the first point `(3, 0, 3)`. -/
lemma scanEdges_stuck {sqrt : K → K} (hs : IsSqrt sqrt) (k : Nat) :
    scanEdges sqrt (polytopeEdges (stuckPolytope k : List (Vector K))) ⟨.posInf, 0, zero⟩ =
      .ret ⟨.fin (21 / sqrt 85), k + 3, ⟨7, 0, 6⟩⟩ := by
  have n117 : sqrt 117 ≠ 0 := ne_of_gt (sqrt_pos_of_pos hs 117 (by norm_num))
  have n26 : sqrt 26 ≠ 0 := ne_of_gt (sqrt_pos_of_pos hs 26 (by norm_num))
  have n8 : sqrt 8 ≠ 0 := ne_of_gt (sqrt_pos_of_pos hs 8 (by norm_num))
  have n85 : sqrt 85 ≠ 0 := ne_of_gt (sqrt_pos_of_pos hs 85 (by norm_num))
  have c1 : ¬ (15 / sqrt 26 < 27 / sqrt 117) := by
    rw [div_sqrt_lt_iff hs 15 27 26 117 (by norm_num) (by norm_num) (by norm_num) (by norm_num)]
    norm_num
  have c2 : ¬ (10 / sqrt 8 < 27 / sqrt 117) := by
    rw [div_sqrt_lt_iff hs 10 27 8 117 (by norm_num) (by norm_num) (by norm_num) (by norm_num)]
    norm_num
  have c3 : 21 / sqrt 85 < 27 / sqrt 117 := by
    rw [div_sqrt_lt_iff hs 21 27 85 117 (by norm_num) (by norm_num) (by norm_num) (by norm_num)]
    norm_num
  rw [polytopeEdges_stuck]
  have s1 : scanEdges sqrt
      [(0, (⟨3, 0, 3⟩ : Vector K), (⟨-3, 0, -6⟩ : Vector K)), (1, ⟨-3, 0, -6⟩, ⟨-2, 0, -1⟩)]
      ⟨.posInf, 0, zero⟩ = .ret ⟨.fin (27 / sqrt 117), 0, ⟨-6, 0, -9⟩⟩ := by
    norm_num [scanEdges, distance_line_point, Ext.absDiv, Ext.lt, sub, zero, n117, n26, c1]
  rw [scanEdges_append sqrt _ _ _ _ s1,
    scanEdges_append sqrt _ _ _ _ (scanEdges_degenerate hs k 2 _)]
  norm_num [scanEdges, distance_line_point, Ext.absDiv, Ext.lt, sub, zero, n8, n85, c2, c3]

lemma getD_stuck (k : Nat) :
    (stuckPolytope k : List (Vector K)).getD (k + 3) zero = ⟨-4, 0, -3⟩ := by
  have h : ∀ n : Nat,
      List.getD (List.replicate n (⟨-2, 0, -1⟩ : Vector K) ++ [⟨-4, 0, -3⟩]) n zero =
        (⟨-4, 0, -3⟩ : Vector K) := by
    intro n
    induction n with
    | zero => rfl
    | succ m ih => simp [List.replicate_succ, ih]
  have h1 := h (k + 1)
  simp only [stuckPolytope, List.getD_cons_succ]
  exact h1

lemma insertBefore_stuck (k : Nat) :
    insertBefore (stuckPolytope k : List (Vector K)) (k + 3) ⟨-2, 0, -1⟩ =
      stuckPolytope (k + 1) := by
  have ht : ∀ n : Nat, List.take n (List.replicate n (⟨-2, 0, -1⟩ : Vector K) ++ [⟨-4, 0, -3⟩]) =
      List.replicate n ⟨-2, 0, -1⟩ := by
    intro n
    induction n with
    | zero => rfl
    | succ m ih => simp [List.replicate_succ, ih]
  have hd : ∀ n : Nat, List.drop n (List.replicate n (⟨-2, 0, -1⟩ : Vector K) ++ [⟨-4, 0, -3⟩]) =
      [⟨-4, 0, -3⟩] := by
    intro n
    induction n with
    | zero => rfl
    | succ m ih => simp [List.replicate_succ, ih]
  have hr : List.replicate (k + 1) (⟨-2, 0, -1⟩ : Vector K) ++ ⟨-2, 0, -1⟩ :: [⟨-4, 0, -3⟩] =
      List.replicate (k + 1 + 1) ⟨-2, 0, -1⟩ ++ [⟨-4, 0, -3⟩] := by
    rw [List.replicate_succ' (n := k + 1)]
    simp
  simp only [insertBefore, stuckPolytope, List.take_succ_cons, List.drop_succ_cons,
    List.cons_append, ht (k + 1), hd (k + 1), hr]

/-- The exit test of the EPA loop fails for the distance `21 / sqrt 85` and
the depth `sqrt 5`: their difference is about `0.0417`. -/
lemma exit_test_fails {sqrt : K → K} (hs : IsSqrt sqrt) :
    ¬ (21 / sqrt 85 - sqrt 5 < 1 / 10000) := by
  have h5 : sqrt 5 ≤ 22361 / 10000 :=
    sqrt_le_of_le_sq hs 5 (22361 / 10000) (by norm_num) (by norm_num) (by norm_num)
  have h85 : sqrt 85 ≤ 92196 / 10000 :=
    sqrt_le_of_le_sq hs 85 (92196 / 10000) (by norm_num) (by norm_num) (by norm_num)
  have p85 : 0 < sqrt 85 := sqrt_pos_of_pos hs 85 (by norm_num)
  have p5 := hs.nonneg 5
  rw [not_lt, ← sub_nonneg]
  have h1 : (sqrt 5 + 1 / 10000) * sqrt 85 ≤ 21 := by
    nlinarith [mul_le_mul h5 h85 (le_of_lt p85) (by norm_num : (0 : K) ≤ 22361 / 10000)]
  have h2 : sqrt 5 + 1 / 10000 ≤ 21 / sqrt 85 := (le_div_iff₀ p85).2 h1
  linarith

/-- The EPA loop never leaves the family `stuckPolytope`: each iteration
selects the same edge, gets the same support point and fails the exit test. -/
lemma epaLoop_stuck {sqrt : K → K} (hs : IsSqrt sqrt) (fuel k : Nat) :
    epaLoop sqrt (triangleU : Object K) triangleV fuel (stuckPolytope k) = .outOfFuel := by
  induction fuel generalizing k with
  | zero => rfl
  | succ n ih =>
    have htest := exit_test_fails hs
    rw [epaLoop_continue sqrt _ _ n (stuckPolytope k) ⟨.fin (21 / sqrt 85), k + 3, ⟨7, 0, 6⟩⟩
      ⟨-2, 0, -1⟩ (scanEdges_stuck hs k)
      (by
        simp only [getD_stuck]
        norm_num [minkDiffSupport, supportVector, supportStep, triangleU, triangleV, dot, sub,
          neg, cross])
      (by
        simp only [Ext.subLt, length]
        norm_num [htest])]
    simp only [insertBefore_stuck]
    exact ih (k + 1)

/-- The first EPA iteration of the run on `triangleU` and `triangleV` leads
from the simplex that GJK accepted into the family `stuckPolytope`. -/
lemma epaLoop_enters_stuck {sqrt : K → K} (hs : IsSqrt sqrt) (fuel : Nat) :
    epaLoop sqrt (triangleU : Object K) triangleV (fuel + 1)
        [⟨3, 0, 3⟩, ⟨-3, 0, -6⟩, ⟨-4, 0, -3⟩] =
      epaLoop sqrt (triangleU : Object K) triangleV fuel (stuckPolytope 0) := by
  have n117 : sqrt 117 ≠ 0 := ne_of_gt (sqrt_pos_of_pos hs 117 (by norm_num))
  have n10 : sqrt 10 ≠ 0 := ne_of_gt (sqrt_pos_of_pos hs 10 (by norm_num))
  have n85 : sqrt 85 ≠ 0 := ne_of_gt (sqrt_pos_of_pos hs 85 (by norm_num))
  have c1 : ¬ (33 / sqrt 10 < 27 / sqrt 117) := by
    rw [div_sqrt_lt_iff hs 33 27 10 117 (by norm_num) (by norm_num) (by norm_num) (by norm_num)]
    norm_num
  have c3 : 21 / sqrt 85 < 27 / sqrt 117 := by
    rw [div_sqrt_lt_iff hs 21 27 85 117 (by norm_num) (by norm_num) (by norm_num) (by norm_num)]
    norm_num
  have htest := exit_test_fails hs
  rw [epaLoop_continue sqrt _ _ fuel [⟨3, 0, 3⟩, ⟨-3, 0, -6⟩, ⟨-4, 0, -3⟩]
    ⟨.fin (21 / sqrt 85), 2, ⟨7, 0, 6⟩⟩ ⟨-2, 0, -1⟩
    (by
      norm_num [scanEdges, polytopeEdges, distance_line_point, Ext.absDiv, Ext.lt, sub, zero,
        n117, n10, n85, c1, c3])
    (by
      norm_num [minkDiffSupport, supportVector, supportStep, triangleU, triangleV, dot, sub,
        neg, cross, zero])
    (by
      simp only [Ext.subLt, length]
      norm_num [htest])]
  rfl

/-- The GJK loop of the run on `triangleU` and `triangleV` accepts a triangle
in its third iteration. -/
lemma gjkLoop_triangleUV (fuel : Nat) :
    gjkLoop (triangleU : Object K) triangleV (fuel + 3) [] ⟨3, 0, 6⟩ =
      .ret (some [⟨3, 0, 3⟩, ⟨-3, 0, -6⟩, ⟨-4, 0, -3⟩]) := by
  rw [gjkLoop_continue _ _ (fuel + 2) [] [⟨3, 0, 3⟩] ⟨3, 0, 6⟩ ⟨3, 0, 3⟩ ⟨-3, 0, -6⟩
    (by norm_num [minkDiffSupport, supportVector, supportStep, triangleU, triangleV, dot, sub,
      neg])
    (by norm_num [dot, neg])
    (by norm_num [testSimplex, dot, sub, neg, cross, zero])]
  rw [gjkLoop_continue _ _ (fuel + 1) [⟨3, 0, 3⟩] [⟨3, 0, 3⟩, ⟨-3, 0, -6⟩] ⟨-3, 0, -6⟩
    ⟨-3, 0, -6⟩ ⟨-54, 0, 27⟩
    (by norm_num [minkDiffSupport, supportVector, supportStep, triangleU, triangleV, dot, sub,
      neg])
    (by norm_num [dot, neg])
    (by norm_num [testSimplex, dot, sub, neg, cross, zero])]
  rw [gjkLoop_accept _ _ fuel [⟨3, 0, 3⟩, ⟨-3, 0, -6⟩] [⟨3, 0, 3⟩, ⟨-3, 0, -6⟩, ⟨-4, 0, -3⟩]
    ⟨-54, 0, 27⟩ ⟨-4, 0, -3⟩ ⟨0, -27, 0⟩
    (by norm_num [minkDiffSupport, supportVector, supportStep, triangleU, triangleV, dot, sub,
      neg])
    (by norm_num [dot, neg])
    (by norm_num [testSimplex, dot, sub, neg, cross, zero])]

/-- With less fuel than three iterations the GJK loop of the run on
`triangleU` and `triangleV` is still going when the fuel ends. -/
lemma gjkLoop_triangleUV_short (fuel : Nat) (h : fuel < 3) :
    gjkLoop (triangleU : Object K) triangleV fuel [] ⟨3, 0, 6⟩ = .outOfFuel := by
  have step1 : ∀ n, gjkLoop (triangleU : Object K) triangleV (n + 1) [] ⟨3, 0, 6⟩ =
      gjkLoop (triangleU : Object K) triangleV n [⟨3, 0, 3⟩] ⟨-3, 0, -6⟩ := fun n =>
    gjkLoop_continue _ _ n [] [⟨3, 0, 3⟩] ⟨3, 0, 6⟩ ⟨3, 0, 3⟩ ⟨-3, 0, -6⟩
      (by norm_num [minkDiffSupport, supportVector, supportStep, triangleU, triangleV, dot,
        sub, neg])
      (by norm_num [dot, neg])
      (by norm_num [testSimplex, dot, sub, neg, cross, zero])
  have step2 : ∀ n, gjkLoop (triangleU : Object K) triangleV (n + 1) [⟨3, 0, 3⟩] ⟨-3, 0, -6⟩ =
      gjkLoop (triangleU : Object K) triangleV n [⟨3, 0, 3⟩, ⟨-3, 0, -6⟩] ⟨-54, 0, 27⟩ :=
    fun n =>
    gjkLoop_continue _ _ n [⟨3, 0, 3⟩] [⟨3, 0, 3⟩, ⟨-3, 0, -6⟩] ⟨-3, 0, -6⟩ ⟨-3, 0, -6⟩
      ⟨-54, 0, 27⟩
      (by norm_num [minkDiffSupport, supportVector, supportStep, triangleU, triangleV, dot,
        sub, neg])
      (by norm_num [dot, neg])
      (by norm_num [testSimplex, dot, sub, neg, cross, zero])
  rcases fuel with _ | _ | _ | n
  · rfl
  · rw [step1]; rfl
  · rw [step1, step2]; rfl
  · omega

/-- The outcome of `intersect` when the fuel ends in the GJK loop. -/
lemma intersect_eq_outOfFuel_gjk (sqrt : K → K) (fuel : Nat) (pv0 a0 : Vector K)
    (A1 : Object K) (b0 : Vector K) (B1 : Object K) (dir : Vector K) (hd : sub b0 a0 = dir)
    (g : gjkLoop (a0 :: A1) (b0 :: B1) fuel [] dir = .outOfFuel) :
    intersect sqrt fuel pv0 (a0 :: A1) (b0 :: B1) = .outOfFuel := by
  simp only [intersect, hd, g]

/-- The outcome of `intersect` when the fuel ends in the EPA loop. -/
lemma intersect_eq_outOfFuel_epa (sqrt : K → K) (fuel : Nat) (pv0 a0 : Vector K)
    (A1 : Object K) (b0 : Vector K) (B1 : Object K) (dir : Vector K)
    (simplex : List (Vector K)) (hd : sub b0 a0 = dir)
    (g : gjkLoop (a0 :: A1) (b0 :: B1) fuel [] dir = .ret (some simplex))
    (e : epaLoop sqrt (a0 :: A1) (b0 :: B1) fuel simplex = .outOfFuel) :
    intersect sqrt fuel pv0 (a0 :: A1) (b0 :: B1) = .outOfFuel := by
  simp only [intersect, hd, g, e]

/-- C12: the triangles `triangleU` and `triangleV` lie in the plane `y = 0`,
and the call of `intersect` on them uses up every amount of fuel: GJK accepts
a triangle in its third iteration, and from then on every EPA iteration
selects the same edge at distance `21 / sqrt 85`, gets the same support point
`(-2, 0, -1)` of length `sqrt 5` and fails the exit test. -/
theorem intersect_never_returns (fuel : Nat) :
    (∀ a ∈ (triangleU : Object ℝ), a.y = 0) ∧ (∀ b ∈ (triangleV : Object ℝ), b.y = 0) ∧
    intersect Real.sqrt fuel zero (triangleU : Object ℝ) triangleV = .outOfFuel := by
  refine ⟨?_, ?_, ?_⟩
  · intro a ha
    simp only [triangleU, List.mem_cons, List.mem_nil_iff, or_false] at ha
    rcases ha with rfl | rfl | rfl <;> rfl
  · intro b hb
    simp only [triangleV, List.mem_cons, List.mem_nil_iff, or_false] at hb
    rcases hb with rfl | rfl | rfl <;> rfl
  · have hd : sub (⟨0, 0, 4⟩ : Vector ℝ) ⟨-3, 0, -2⟩ = ⟨3, 0, 6⟩ := by norm_num [sub]
    by_cases h : fuel < 3
    · exact intersect_eq_outOfFuel_gjk Real.sqrt fuel zero _ _ _ _ ⟨3, 0, 6⟩ hd
        (gjkLoop_triangleUV_short fuel h)
    · obtain ⟨n, rfl⟩ : ∃ n, fuel = n + 3 := ⟨fuel - 3, by omega⟩
      refine intersect_eq_outOfFuel_epa Real.sqrt (n + 3) zero _ _ _ _ ⟨3, 0, 6⟩
        [⟨3, 0, 3⟩, ⟨-3, 0, -6⟩, ⟨-4, 0, -3⟩] hd (gjkLoop_triangleUV n) ?_
      exact (epaLoop_enters_stuck isSqrt_real (n + 2)).trans
        (epaLoop_stuck isSqrt_real (n + 2) 0)

end SteerLib


/-! ## The returned vector and the edges of the Minkowski difference -/

namespace SteerLib

open Util Util.Vector

end SteerLib


namespace Ieee

/-- One step of the binary search of `log2` keeps `q * 2^a ≤ m` and
`1 ≤ q`. -/
lemma log2Step_inv (m : Nat) (p : Nat × Nat) (k : Nat) (h : p.1 * 2 ^ p.2 ≤ m ∧ 1 ≤ p.1) :
    (log2Step p k).1 * 2 ^ (log2Step p k).2 ≤ m ∧ 1 ≤ (log2Step p k).1 := by
  unfold log2Step
  split_ifs with hz
  · exact h
  · refine ⟨?_, Nat.one_le_iff_ne_zero.2 hz⟩
    simp only [Nat.shiftRight_eq_div_pow]
    calc p.1 / 2 ^ k * 2 ^ (p.2 + k) = (p.1 / 2 ^ k * 2 ^ k) * 2 ^ p.2 := by
          rw [pow_add]; ring
      _ ≤ p.1 * 2 ^ p.2 := Nat.mul_le_mul_right _ (Nat.div_mul_le_self _ _)
      _ ≤ m := h.1

/-- For `m ≥ 1`, `2 ^ log2 m ≤ m`. -/
lemma pow_log2_le (m : Nat) (hm : 1 ≤ m) : 2 ^ log2 m ≤ m := by
  have h0 : ((m, 0) : Nat × Nat).1 * 2 ^ ((m, 0) : Nat × Nat).2 ≤ m ∧
      1 ≤ ((m, 0) : Nat × Nat).1 := by simp [hm]
  have h := log2Step_inv m _ 1 (log2Step_inv m _ 2 (log2Step_inv m _ 4 (log2Step_inv m _ 8
    (log2Step_inv m _ 16 (log2Step_inv m _ 32 (log2Step_inv m _ 64 (log2Step_inv m _ 128
    (log2Step_inv m _ 256 (log2Step_inv m _ 512 h0)))))))))
  have h1 : 2 ^ log2 m ≤ (List.foldl log2Step (m, 0) [512, 256, 128, 64, 32, 16, 8, 4, 2, 1]).1 *
      2 ^ log2 m := Nat.le_mul_of_pos_left _ h.2
  exact le_trans h1 h.1

namespace Binary32

end Binary32

end Ieee


namespace Ieee

/-- A number below `2^e` has its leading bit below position `e`. -/
lemma log2_lt (m e : Nat) (hm : 1 ≤ m) (h : m < 2 ^ e) : log2 m < e := by
  have h1 := pow_log2_le m hm
  exact (Nat.pow_lt_pow_iff_right (by norm_num)).1 (lt_of_le_of_lt h1 h)

/-- A quotient that is a natural number rounds to itself. -/
lemma roundNat_of_dvd (n d : Nat) (hd : 0 < d) (h : d ∣ n) : roundNat n d = n / d := by
  have hmod : n % d = 0 := Nat.mod_eq_zero_of_dvd h
  unfold roundNat
  simp [hmod, hd]

/-- An integer `K < 2^24`, given in units of `2^(-149 - u)`, rounds to
itself. -/
lemma roundMag_exact (K u : Nat) (h : K < 2 ^ 24) :
    roundMag (K * 2 ^ (149 + u)) u = some (K * 2 ^ 149) := by
  have hlog : log2 (K * 2 ^ (149 + u)) ≤ 172 + u := by
    rcases Nat.eq_zero_or_pos K with rfl | hK
    · have : log2 0 = 0 := by decide
      simp [this]
    · have h1 : K * 2 ^ (149 + u) < 2 ^ (173 + u) := by
        have : 2 ^ (173 + u) = 2 ^ 24 * 2 ^ (149 + u) := by
          rw [← pow_add]; congr 1; omega
        rw [this]
        exact Nat.mul_lt_mul_of_pos_right h (by positivity)
      have h2 := log2_lt _ (173 + u) (Nat.mul_pos hK (by positivity)) h1
      omega
  have hs1 : u ≤ max (log2 (K * 2 ^ (149 + u)) - 23) u := le_max_right _ _
  have hs2 : max (log2 (K * 2 ^ (149 + u)) - 23) u ≤ 149 + u := max_le (by omega) (by omega)
  have key : ∀ s, u ≤ s → s ≤ 149 + u →
      roundNat (K * 2 ^ (149 + u)) (1 <<< s) <<< (s - u) = K * 2 ^ 149 := by
    intro s hs1 hs2
    rw [Nat.shiftLeft_eq, Nat.one_shiftLeft]
    have hsplit : K * 2 ^ (149 + u) = K * 2 ^ (149 + u - s) * 2 ^ s := by
      rw [Nat.mul_assoc, ← pow_add]; congr 2; omega
    have hdvd : 2 ^ s ∣ K * 2 ^ (149 + u) := ⟨K * 2 ^ (149 + u - s), by rw [hsplit]; ring⟩
    rw [roundNat_of_dvd _ _ (by positivity) hdvd]
    rw [hsplit, Nat.mul_div_cancel _ (by positivity : 0 < 2 ^ s), Nat.mul_assoc, ← pow_add]
    congr 2
    omega
  have hr := key _ hs1 hs2
  have hlt : K * 2 ^ 149 < 1 <<< 277 := by
    rw [Nat.one_shiftLeft]
    calc K * 2 ^ 149 < 2 ^ 24 * 2 ^ 149 := Nat.mul_lt_mul_of_pos_right h (by positivity)
      _ = 2 ^ 173 := by rw [← pow_add]
      _ < 2 ^ 277 := Nat.pow_lt_pow_right (by norm_num) (by norm_num)
  unfold roundMag
  simp only [hr, if_neg (not_le.2 hlt)]

/-- An integer `k` with `|k| < 2^24`, given in units of `2^(-149 - u)`,
rounds to itself. -/
lemma rnd_exact (k : Int) (u : Nat) (h : k.natAbs < 2 ^ 24) :
    rnd (k * 2 ^ (149 + u)) u = .fin (k * 2 ^ 149) := by
  have hm : (k * 2 ^ (149 + u)).natAbs = k.natAbs * 2 ^ (149 + u) := by
    rw [Int.natAbs_mul, Int.natAbs_pow]; rfl
  unfold rnd
  rw [hm, roundMag_exact k.natAbs u h]
  have hpos : (0 : Int) < 2 ^ (149 + u) := by positivity
  by_cases hk : 0 ≤ k
  · have : 0 ≤ k * 2 ^ (149 + u) := mul_nonneg hk hpos.le
    simp only [this, if_true]
    congr 1
    push_cast
    rw [abs_of_nonneg hk]
  · have hneg : k < 0 := not_le.1 hk
    have : ¬ 0 ≤ k * 2 ^ (149 + u) := not_le.2 (mul_neg_of_neg_of_pos hneg hpos)
    simp only [this, if_false]
    congr 1
    push_cast
    rw [abs_of_neg hneg]
    ring

end Ieee


namespace Ieee

namespace Binary32

/-- The unit of the finite floats, as an integer. -/
lemma unit_eq : ((1 <<< 149 : Nat) : Int) = 2 ^ 149 := by
  rw [Nat.one_shiftLeft]; norm_cast

/-- The float nearest to a small integer is that integer. -/
lemma holds_ofInt (B : Nat) (k : Int) (hk : k.natAbs ≤ B) (hB : B < 2 ^ 24) :
    holds B (ofInt k) k := by
  refine ⟨?_, hk⟩
  have h := rnd_exact k 0 (lt_of_le_of_lt hk hB)
  unfold ofInt
  rw [unit_eq]
  exact h

end Binary32

end Ieee


namespace Util

namespace Rounded

open Ieee

end Rounded

end Util

namespace Ieee

namespace Binary32

end Binary32

end Ieee


namespace Ieee

namespace Binary32

set_option maxRecDepth 100000 in
/-- Landmarks of binary32 arithmetic: `2^24 + 1` is a tie and rounds to the
even neighbour `2^24`; `2^24 + 3` rounds to `2^24 + 4`; `(2^24 - 1)^2` rounds
to `2^48 - 2^25`; the largest finite float is `2^128 - 2^104`, adding `2^103`
to it overflows and adding `2^102` leaves it; `2^64 * 2^64` overflows;
`inf - inf` and `0 * inf` are NaN; the smallest subnormal `2^(-149)` times
itself underflows to zero, and three times it times 1 is exact. -/
lemma binary32_landmarks :
    add (ofInt 16777216) (ofInt 1) = ofInt 16777216 ∧
    add (ofInt 16777216) (ofInt 3) = ofInt 16777220 ∧
    mul (ofInt 16777215) (ofInt 16777215) = ofInt (2 ^ 48 - 2 ^ 25) ∧
    add (ofInt (2 ^ 127)) (ofInt (2 ^ 127 - 2 ^ 104)) = ofInt (2 ^ 128 - 2 ^ 104) ∧
    ofInt (2 ^ 128 - 2 ^ 104) = .fin ((2 ^ 24 - 1) * 2 ^ 253) ∧
    add (ofInt (2 ^ 128 - 2 ^ 104)) (ofInt (2 ^ 103)) = .pinf ∧
    add (ofInt (2 ^ 128 - 2 ^ 104)) (ofInt (2 ^ 102)) = ofInt (2 ^ 128 - 2 ^ 104) ∧
    mul (ofInt (2 ^ 64)) (ofInt (2 ^ 64)) = .pinf ∧
    mul (ofInt (2 ^ 64)) (ofInt (-(2 ^ 64))) = .ninf ∧
    sub .pinf .pinf = .nan ∧
    mul (ofInt 0) .pinf = .nan ∧
    mul (.fin 1) (.fin 1) = .fin 0 ∧
    mul (.fin 3) (ofInt 1) = .fin 3 := by
  refine ⟨by decide, by decide, by decide, by decide, by decide, by decide, by decide,
    by decide, by decide, by decide, by decide, by decide, by decide⟩

/-- Minus zero is zero. -/
lemma neg_zero32 : neg (.fin 0) = .fin 0 := by decide

end Binary32

end Ieee

namespace SteerLib

namespace Rounded

open Util Ieee Util.Rounded

end Rounded

end SteerLib


/-! ## Rounding: what the `float` program does on the same inputs -/

namespace SteerLib

namespace Rounded

open Util Ieee Util.Rounded

end Rounded

end SteerLib


namespace SteerLib

namespace Rounded

open Util Ieee Util.Rounded

set_option maxRecDepth 100000 in
/-- C8, counterexample: in `float`, for `o = [(2^24, 0, 0), (2^24, 0, 1)]`
and `v = (1, 0, 1)` `supportVector` returns `o[0]`, whose dot product with
`v` is `2^24`, smaller than that of `o[1]`, `2^24 + 1`: both computed dot
products are `2^24`.  And for `o = [(2^64, 0, 2^64), (1, 0, 0)]` and
`v = (2^64, 0, -2^64)` it returns `o[0]`, whose computed dot product is NaN
(`inf - inf`), so that no comparison with it holds. -/
theorem supportVector_rounding :
    supportVector [vec 16777216 0 0, vec 16777216 0 1] (vec 1 0 1) = .ret (vec 16777216 0 0) ∧
    dot (vec 16777216 0 0) (vec 1 0 1) = Binary32.ofInt 16777216 ∧
    dot (vec 16777216 0 1) (vec 1 0 1) = Binary32.ofInt 16777216 ∧
    Vector.dot (toRat (vec 16777216 0 0)) (toRat (vec 1 0 1)) <
      Vector.dot (toRat (vec 16777216 0 1)) (toRat (vec 1 0 1)) ∧
    supportVector [vec (2 ^ 64) 0 (2 ^ 64), vec 1 0 0] (vec (2 ^ 64) 0 (-(2 ^ 64))) =
      .ret (vec (2 ^ 64) 0 (2 ^ 64)) ∧
    dot (vec (2 ^ 64) 0 (2 ^ 64)) (vec (2 ^ 64) 0 (-(2 ^ 64))) = .nan ∧
    Binary32.le (dot (vec 1 0 0) (vec (2 ^ 64) 0 (-(2 ^ 64))))
      (dot (vec (2 ^ 64) 0 (2 ^ 64)) (vec (2 ^ 64) 0 (-(2 ^ 64)))) = false := by
  refine ⟨by decide, by decide, by decide, ?_, by decide, by decide, by decide⟩
  have e1 : vec 16777216 0 0 = ⟨.fin (16777216 * 2 ^ 149), .fin 0, .fin 0⟩ := by decide
  have e2 : vec 16777216 0 1 = ⟨.fin (16777216 * 2 ^ 149), .fin 0, .fin (2 ^ 149)⟩ := by decide
  have e3 : vec 1 0 1 = ⟨.fin (2 ^ 149), .fin 0, .fin (2 ^ 149)⟩ := by decide
  rw [e1, e2, e3]
  simp only [toRat, Binary32.toRat, Vector.dot]
  norm_num

end Rounded

end SteerLib


namespace Ieee

namespace Binary32

/-- Among floats that are not NaN, `a < b` and `b < c` give `a < c`. -/
lemma lt_trans32 (a b c : Binary32) (h1 : lt a b = true) (h2 : lt b c = true) :
    lt a c = true := by
  cases a <;> cases b <;> cases c <;> simp_all [lt]
  omega

/-- For floats that are not NaN, when `a < b` fails `b <= a` holds. -/
lemma le_of_not_lt32 (a b : Binary32) (ha : a ≠ .nan) (hb : b ≠ .nan) (h : lt a b = false) :
    le b a = true := by
  cases a <;> cases b <;> simp_all [lt, le, eq]
  omega

/-- For floats, `a <= b` and `b < c` give `a < c`. -/
lemma lt_of_le_of_lt32 (a b c : Binary32) (h1 : le a b = true) (h2 : lt b c = true) :
    lt a c = true := by
  cases a <;> cases b <;> cases c <;> simp_all [lt, le, eq]
  omega

/-- For floats, `a < b` gives `a <= b`. -/
lemma le_of_lt32 (a b : Binary32) (h : lt a b = true) : le a b = true := by
  simp [le, h]

/-- A float that is not NaN is `<=` itself. -/
lemma le_refl32 (a : Binary32) (ha : a ≠ .nan) : le a a = true := by
  cases a <;> simp_all [lt, le, eq]

end Binary32

end Ieee

namespace SteerLib

namespace Rounded

open Util Ieee Util.Rounded

/-- The scan of the `float` `supportVector` over a list `l` none of whose
computed dot products is NaN, started from a vertex `r0` with its own dot
product: either `r0` survives and nothing in `l` beats it, or the result is
the first element of `l` that attains the largest computed dot product, which
is strictly larger than that of `r0`. -/
lemma foldl_supportStep32 (v : Vector Binary32) (l : List (Vector Binary32))
    (r0 : Vector Binary32) (hr0 : dot r0 v ≠ .nan) (hl : ∀ w ∈ l, dot w v ≠ .nan) :
    ((l.foldl (supportStep v) (dot r0 v, r0)).2 = r0 ∧
        ∀ w ∈ l, Binary32.le (dot w v) (dot r0 v) = true) ∨
      ∃ pre post, l = pre ++ (l.foldl (supportStep v) (dot r0 v, r0)).2 :: post ∧
        (∀ w ∈ pre,
          Binary32.lt (dot w v) (dot (l.foldl (supportStep v) (dot r0 v, r0)).2 v) = true) ∧
        Binary32.lt (dot r0 v) (dot (l.foldl (supportStep v) (dot r0 v, r0)).2 v) = true ∧
        ∀ w ∈ post,
          Binary32.le (dot w v) (dot (l.foldl (supportStep v) (dot r0 v, r0)).2 v) = true := by
  induction l generalizing r0 with
  | nil => simp
  | cons a t ih =>
    have ha : dot a v ≠ .nan := hl a (List.mem_cons_self a t)
    have ht : ∀ w ∈ t, dot w v ≠ .nan := fun w hw => hl w (List.mem_cons_of_mem a hw)
    cases h : Binary32.lt (dot r0 v) (dot a v) with
    | true =>
      have hstep : supportStep v (dot r0 v, r0) a = (dot a v, a) := by
        simp [supportStep, h]
      rw [List.foldl_cons, hstep]
      refine Or.inr ?_
      rcases ih a ha ht with ⟨he, hle⟩ | ⟨pre, post, hl1, hpre, hlt, hpost⟩
      · refine ⟨[], t, ?_, ?_, ?_, ?_⟩
        · rw [he]; rfl
        · simp
        · rw [he]; exact h
        · rw [he]; exact hle
      · refine ⟨a :: pre, post, ?_, ?_, ?_, hpost⟩
        · rw [List.cons_append, ← hl1]
        · intro w hw
          rcases List.mem_cons.1 hw with rfl | hw
          · exact hlt
          · exact hpre w hw
        · exact Binary32.lt_trans32 _ _ _ h hlt
    | false =>
      have hstep : supportStep v (dot r0 v, r0) a = (dot r0 v, r0) := by
        simp [supportStep, h]
      rw [List.foldl_cons, hstep]
      have hle0 : Binary32.le (dot a v) (dot r0 v) = true :=
        Binary32.le_of_not_lt32 _ _ hr0 ha h
      rcases ih r0 hr0 ht with ⟨he, hle⟩ | ⟨pre, post, hl1, hpre, hlt, hpost⟩
      · refine Or.inl ⟨he, ?_⟩
        intro w hw
        rcases List.mem_cons.1 hw with rfl | hw
        · exact hle0
        · exact hle w hw
      · refine Or.inr ⟨a :: pre, post, ?_, ?_, hlt, hpost⟩
        · rw [List.cons_append, ← hl1]
        · intro w hw
          rcases List.mem_cons.1 hw with rfl | hw
          · exact Binary32.lt_of_le_of_lt32 _ _ _ hle0 hlt
          · exact hpre w hw

/-- In `float`, on a non-empty shape none of whose computed dot products is
NaN, `supportVector` returns a vertex that splits the shape into the vertices
before it, all with a strictly smaller computed dot product, and the rest,
and no vertex has a larger computed dot product. -/
lemma supportVector_split32 (o : Object Binary32) (v : Vector Binary32)
    (h : o ≠ []) (hnan : ∀ w ∈ o, dot w v ≠ .nan) :
    ∃ r pre post, supportVector o v = .ret r ∧ o = pre ++ r :: post ∧
      (∀ w ∈ pre, Binary32.lt (dot w v) (dot r v) = true) ∧
      (∀ w ∈ o, Binary32.le (dot w v) (dot r v) = true) := by
  cases o with
  | nil => exact absurd rfl h
  | cons o0 rest =>
    have h0 : dot o0 v ≠ .nan := hnan o0 (List.mem_cons_self o0 rest)
    have hrest : ∀ w ∈ rest, dot w v ≠ .nan := fun w hw => hnan w (List.mem_cons_of_mem o0 hw)
    have hself : Binary32.lt (dot o0 v) (dot o0 v) = false := by
      cases dot o0 v <;> simp [Binary32.lt]
    have hstep : supportStep v (dot o0 v, o0) o0 = (dot o0 v, o0) := by
      simp [supportStep, hself]
    have hsv : supportVector (o0 :: rest) v =
        .ret (rest.foldl (supportStep v) (dot o0 v, o0)).2 := by
      simp only [supportVector, List.foldl_cons, hstep]
    rcases foldl_supportStep32 v rest o0 h0 hrest with
      ⟨he, hle⟩ | ⟨pre, post, hl, hpre, hlt, hpost⟩
    · refine ⟨_, [], rest, hsv, ?_, ?_, ?_⟩
      · rw [he]; rfl
      · simp
      · rw [he]
        intro w hw
        rcases List.mem_cons.1 hw with rfl | hw
        · exact Binary32.le_refl32 _ h0
        · exact hle w hw
    · refine ⟨_, o0 :: pre, post, hsv, ?_, ?_, ?_⟩
      · rw [List.cons_append, ← hl]
      · intro w hw
        rcases List.mem_cons.1 hw with rfl | hw
        · exact hlt
        · exact hpre w hw
      · intro w hw
        rcases List.mem_cons.1 hw with rfl | hw
        · exact Binary32.le_of_lt32 _ _ hlt
        · rw [hl] at hw
          rcases List.mem_append.1 hw with hw | hw
          · exact Binary32.le_of_lt32 _ _ (hpre w hw)
          · rcases List.mem_cons.1 hw with heq | hw
            · rw [heq]
              refine Binary32.le_refl32 _ ?_
              intro hn
              rw [hn] at hlt
              cases hd : dot o0 v <;> simp [hd, Binary32.lt] at hlt
            · exact hpost w hw

/-- C8: in `float`, for a non-empty shape `o` and a direction `v` such that
no computed dot product `w . v` of a vertex is NaN, `supportVector` returns a
vertex `r` of `o` whose computed dot product is the largest
(`w . v <= r . v` for every vertex `w`, as `float`s), and `r` is the first
vertex in list order that attains it: every vertex before it has a strictly
smaller computed dot product. -/
theorem supportVector_first_computed_maximizer (o : Object Binary32) (v : Vector Binary32)
    (h : o ≠ []) (hnan : ∀ w ∈ o, dot w v ≠ .nan) :
    ∃ r pre post, supportVector o v = .ret r ∧ o = pre ++ r :: post ∧
      (∀ w ∈ pre, Binary32.lt (dot w v) (dot r v) = true) ∧
      (∀ w ∈ o, Binary32.le (dot w v) (dot r v) = true) :=
  supportVector_split32 o v h hnan

set_option maxRecDepth 100000 in
/-- The `float` first-maximiser property at the shape
`[(2^24, 0, 0), (2^24, 0, 1), (0, 0, 5)]` and the direction `(1, 0, 1)`. -/
theorem supportVector_first_computed_maximizer_witness :
    ([vec 16777216 0 0, vec 16777216 0 1, vec 0 0 5] : Object Binary32) ≠ [] ∧
    (∀ w ∈ ([vec 16777216 0 0, vec 16777216 0 1, vec 0 0 5] : Object Binary32),
      dot w (vec 1 0 1) ≠ .nan) ∧
    ∃ r pre post,
      supportVector [vec 16777216 0 0, vec 16777216 0 1, vec 0 0 5] (vec 1 0 1) = .ret r ∧
      [vec 16777216 0 0, vec 16777216 0 1, vec 0 0 5] = pre ++ r :: post ∧
      (∀ w ∈ pre, Binary32.lt (dot w (vec 1 0 1)) (dot r (vec 1 0 1)) = true) ∧
      (∀ w ∈ ([vec 16777216 0 0, vec 16777216 0 1, vec 0 0 5] : Object Binary32),
        Binary32.le (dot w (vec 1 0 1)) (dot r (vec 1 0 1)) = true) :=
  ⟨by decide, by decide,
    supportVector_first_computed_maximizer _ _ (by decide) (by decide)⟩

end Rounded

end SteerLib


namespace SteerLib

namespace Rounded

open Util Ieee Util.Rounded

/-- The scan of the `float` `supportVector` ends on its start vertex or on an
element of the list. -/
lemma foldl_supportStep_mem32 (v : Vector Binary32) (l : List (Vector Binary32))
    (m : Binary32) (r0 : Vector Binary32) :
    (l.foldl (supportStep v) (m, r0)).2 = r0 ∨ (l.foldl (supportStep v) (m, r0)).2 ∈ l := by
  induction l generalizing m r0 with
  | nil => exact Or.inl rfl
  | cons a t ih =>
    rw [List.foldl_cons]
    by_cases hc : Binary32.lt m (dot a v) = true
    · have hstep : supportStep v (m, r0) a = (dot a v, a) := by
        simp [supportStep, hc]
      rw [hstep]
      rcases ih (dot a v) a with h | h
      · exact Or.inr (by rw [h]; exact List.mem_cons_self a t)
      · exact Or.inr (List.mem_cons_of_mem a h)
    · have hstep : supportStep v (m, r0) a = (m, r0) := by
        simp [supportStep, hc]
      rw [hstep]
      rcases ih m r0 with h | h
      · exact Or.inl h
      · exact Or.inr (List.mem_cons_of_mem a h)

/-- On a non-empty shape the `float` `supportVector` returns a vertex of the
shape. -/
lemma supportVector_mem32 (o : Object Binary32) (v : Vector Binary32) (h : o ≠ []) :
    ∃ r ∈ o, supportVector o v = .ret r := by
  cases o with
  | nil => exact absurd rfl h
  | cons o0 rest =>
    refine ⟨_, ?_, rfl⟩
    rcases foldl_supportStep_mem32 v (o0 :: rest) (dot o0 v) o0 with h1 | h1
    · rw [h1]; exact List.mem_cons_self o0 rest
    · exact h1

/-- On non-empty shapes the `float` `minkDiffSupport` returns the rounded
difference of a vertex of each shape. -/
lemma minkDiffSupport_mem32 (A B : Object Binary32) (d : Vector Binary32)
    (hA : A ≠ []) (hB : B ≠ []) :
    ∃ a ∈ A, ∃ b ∈ B, minkDiffSupport A B d = .ret (sub a b) := by
  obtain ⟨a, ha, hsa⟩ := supportVector_mem32 A d hA
  obtain ⟨b, hb, hsb⟩ := supportVector_mem32 B (neg d) hB
  exact ⟨a, ha, b, hb, by simp only [minkDiffSupport, hsa, hsb]⟩

/-- In `float`, a vector the EPA loop returns is the rounded difference of a
vertex of each shape. -/
lemma epaLoop_mem32 (divSqrt : Binary32 → Binary32 → Binary32 → Binary32)
    (sqrtf : Binary32 → Binary32) (A B : Object Binary32) (hA : A ≠ []) (hB : B ≠ [])
    (fuel : Nat) (polytope : List (Vector Binary32)) (depth : Binary32)
    (v : Vector Binary32) (h : epaLoop divSqrt sqrtf A B fuel polytope = .ret (depth, v)) :
    ∃ a ∈ A, ∃ b ∈ B, v = sub a b := by
  induction fuel generalizing polytope with
  | zero => simp [epaLoop] at h
  | succ n ih =>
    simp only [epaLoop] at h
    split at h
    · rename_i min hs
      obtain ⟨a, ha, b, hb, hm⟩ := minkDiffSupport_mem32 A B
        (epaDirection (polytope.getD min.iter zero) min.edge) hA hB
      rw [hm] at h
      simp only at h
      split_ifs at h with hc
      · injection h with h
        injection h with _ h
        exact ⟨a, ha, b, hb, h.symm⟩
      · exact ih _ h
    · cases h
    · cases h

/-- In `float`, whenever `intersect` returns true the penetration vector it
leaves is the rounded difference `a - b` of a vertex `a` of the first shape
and a vertex `b` of the second. -/
lemma intersect32_vector_is_vertex_difference
    (divSqrt : Binary32 → Binary32 → Binary32 → Binary32) (sqrtf : Binary32 → Binary32)
    (fuel : Nat) (pv0 : Vector Binary32) (A B : Object Binary32) (depth : Binary32)
    (v : Vector Binary32) (h : intersect divSqrt sqrtf fuel pv0 A B = .ret (true, depth, v)) :
    ∃ a ∈ A, ∃ b ∈ B, v = sub a b := by
  cases A with
  | nil => simp [intersect] at h
  | cons a0 A1 =>
    cases B with
    | nil => simp [intersect] at h
    | cons b0 B1 =>
      simp only [intersect] at h
      split at h
      · simp at h
      · rename_i simplex hg
        split at h
        · rename_i d w he
          injection h with h
          injection h with _ h
          injection h with h1 h2
          subst h1 h2
          exact epaLoop_mem32 divSqrt sqrtf _ _ (List.cons_ne_nil _ _) (List.cons_ne_nil _ _)
            fuel simplex _ _ he
        · cases h
        · cases h
      · cases h
      · cases h

end Rounded

end SteerLib


/-! ## Inputs with small integer coordinates: the rounded program is exact -/

namespace Ieee

namespace Binary32

end Binary32

end Ieee

namespace Util

namespace Rounded

open Ieee

end Rounded

end Util

namespace SteerLib

open Util Util.Vector

variable {K : Type} [LinearOrderedField K]

end SteerLib

namespace SteerLib

namespace Rounded

open Util Ieee Util.Rounded

end Rounded

end SteerLib


namespace SteerLib

namespace Rounded

open Util Ieee Util.Rounded

end Rounded

end SteerLib


/-! ## The claims that need exact arithmetic -/

namespace SteerLib

namespace Rounded

open Util Ieee Util.Rounded

end Rounded

end SteerLib


/-! ## Translation of shapes with small integer coordinates -/

namespace Ieee

namespace Binary32

end Binary32

end Ieee

namespace Util

namespace Rounded

open Ieee

end Rounded

end Util

namespace SteerLib

namespace Rounded

open Util Ieee Util.Rounded

end Rounded

end SteerLib
